import Mathlib

/-!
# Settlement engine of the banker-style counting app: shallow embedding

This file embeds the pure computational core of the application
(the `totals`, `debtsByRound`, `finalSettlement`, `settlementByPerson`
memos and the `removePlayer` cascade of `App.tsx`) and proves the
testable properties stated in the design document.

Modelling conventions:

* JavaScript numbers are modelled by `JsNum`: a finite number carries an
  exact integer amount (the design document prescribes fixed-unit integer
  minor-currency amounts; the engine only uses `+`, unary `-`, `min`,
  `Math.abs` and comparisons, all of which are exact on integers), and all
  non-finite numbers (`NaN`, `Infinity`, `-Infinity`) are collapsed into a
  single `nonfinite` value.  This is faithful for the operations the code
  performs: adding or negating anything non-finite is non-finite, and
  `Number.isFinite` distinguishes exactly the two classes.
* A JavaScript object used as a string-keyed record is modelled as an
  association list `List (String × _)`; object keys are unique, which is
  expressed where needed by a `Nodup` hypothesis on the key list.
  `obj[k]` is first-match lookup, `Object.entries` is the list itself,
  and `{ ...obj, [k]: v }` replaces the entry in place or appends it.
* `Array.prototype.sort` is stable (ES2019) and its output for a total
  preorder comparator is therefore uniquely determined; it is modelled by
  `List.insertionSort`, which is exactly the stable sort.
-/

/-- A JavaScript number as used by the engine: an exact finite amount, or
any non-finite value (`NaN`, `±Infinity`) collapsed into one point. -/
inductive JsNum where
  | fin (q : ℤ) : JsNum
  | nonfinite : JsNum
deriving DecidableEq, Repr

namespace JsNum

/-- JavaScript `+` on numbers: any non-finite operand makes the result
non-finite; finite operands add exactly. -/
def add : JsNum → JsNum → JsNum
  | fin a, fin b => fin (a + b)
  | _, _ => nonfinite

instance : Add JsNum := ⟨add⟩

/-- JavaScript unary `-`. -/
def neg : JsNum → JsNum
  | fin a => fin (-a)
  | nonfinite => nonfinite

instance : Neg JsNum := ⟨neg⟩

/-- Source `Number.isFinite`. -/
def isFinite : JsNum → Bool
  | fin _ => true
  | nonfinite => false

/-- The coercion `Number.isFinite(v) ? v : 0` that the aggregator applies to
every value before accumulating it. -/
def toFinite : JsNum → ℤ
  | fin a => a
  | nonfinite => 0

end JsNum

/-- Source `type Player = { id: string; name: string }`. -/
structure Player where
  id : String
  name : String
deriving DecidableEq, Repr

/-- Source `type RoundValues = Record<string, number>` as an association list. -/
abbrev RoundValues := List (String × JsNum)

/-- Source `type GameRound = { id: string; bankerId: string; values: RoundValues }`. -/
structure GameRound where
  id : String
  bankerId : String
  values : RoundValues
deriving DecidableEq, Repr

/-- Source `type DebtItem = { roundIndex, bankerId, fromId, toId, amount }`. -/
structure DebtItem where
  roundIndex : Nat
  bankerId : String
  fromId : String
  toId : String
  amount : ℤ
deriving DecidableEq, Repr

/-- A settlement transaction `{ fromId, toId, amount }` as produced by
`finalSettlement`. -/
structure Transaction where
  fromId : String
  toId : String
  amount : ℤ
deriving DecidableEq, Repr

/-- A debtor/creditor work-list entry `{ id, amount }` used by the
`finalSettlement` loop. -/
structure Entry where
  id : String
  amount : ℤ
deriving DecidableEq, Repr

/-- A per-person summary `{ personId, pay, receive, net }` as produced by
`settlementByPerson`. -/
structure PersonSettlement where
  personId : String
  pay : ℤ
  receive : ℤ
  net : ℤ
deriving DecidableEq, Repr

/-- Source `round.values[pid] ?? 0`. -/
def lookupD (vals : RoundValues) (pid : String) : JsNum :=
  (vals.lookup pid).getD (JsNum.fin 0)

/-- The key list of a record. -/
def keysOf (vals : RoundValues) : List String :=
  vals.map Prod.fst

/-- Source `players.filter(p => p.id !== round.bankerId).reduce((s, p) => s + (round.values[p.id] ?? 0), 0)`
(the participant sum inside the `totals` memo). -/
def sumParticipants (players : List Player) (r : GameRound) : JsNum :=
  ((players.filter fun p => p.id ≠ r.bankerId).map fun p =>
    lookupD r.values p.id).foldl (· + ·) (JsNum.fin 0)

/-- Source `const finalValues = { ...round.values, [round.bankerId]: -sumParticipants }`:
the banker entry is replaced in place when present, appended otherwise. -/
def finalValues (players : List Player) (r : GameRound) : RoundValues :=
  if r.bankerId ∈ keysOf r.values then
    r.values.map fun kv =>
      if kv.1 = r.bankerId then (kv.1, -(sumParticipants players r)) else kv
  else
    r.values ++ [(r.bankerId, -(sumParticipants players r))]

/-- The key list obtained by JavaScript object insertion order:
`players.forEach(p => acc[p.id] = 0)` keeps the first position of every
key, so the accumulator keys are the ids with duplicates dropped,
first occurrence kept. -/
def firstKeys (l : List String) : List String :=
  l.foldl (fun acc k => if k ∈ acc then acc else acc ++ [k]) []

/-- Source `const acc = {}; players.forEach(p => acc[p.id] = 0)`. -/
def initAcc (players : List Player) : List (String × ℤ) :=
  (firstKeys (players.map Player.id)).map fun k => (k, 0)

/-- Source `if (acc[pid] !== undefined) acc[pid] += x`: updates the value at a key
that is already present and is a no-op otherwise. -/
def updList (acc : List (String × ℤ)) (pid : String) (x : ℤ) : List (String × ℤ) :=
  acc.map fun kv => if kv.1 = pid then (kv.1, kv.2 + x) else kv

/-- One iteration of the `rounds.forEach` loop of the `totals` memo:
skip the round when `!round.bankerId`, otherwise add
`Number.isFinite(v) ? v : 0` for each entry `[pid, v]` of `finalValues`
into every already-present accumulator key. -/
def applyRound (players : List Player) (acc : List (String × ℤ)) (r : GameRound) :
    List (String × ℤ) :=
  if r.bankerId = "" then acc
  else (finalValues players r).foldl (fun a e => updList a e.1 e.2.toFinite) acc

/-- The `totals` memo: the Balance mapping, player id → running signed total. -/
def totals (players : List Player) (rounds : List GameRound) : List (String × ℤ) :=
  rounds.foldl (applyRound players) (initAcc players)

/-- Source `totals[pid] ?? 0`: a player's final Balance. -/
def balanceD (players : List Player) (rounds : List GameRound) (pid : String) : ℤ :=
  ((totals players rounds).lookup pid).getD 0

/-- The body of the inner `for (const p of players)` loop of the
`debtsByRound` memo, for one round at 0-based index `idx`. -/
def roundDebts (players : List Player) (idx : Nat) (r : GameRound) : List DebtItem :=
  players.foldl (fun items p =>
    if p.id = r.bankerId then items
    else
      match lookupD r.values p.id with
      | JsNum.nonfinite => items
      | JsNum.fin v =>
        if v = 0 then items
        else if 0 < v then
          items ++ [⟨idx + 1, r.bankerId, r.bankerId, p.id, v⟩]
        else
          items ++ [⟨idx + 1, r.bankerId, p.id, r.bankerId, abs v⟩]) []

/-- The `rounds.forEach((round, idx) => ...)` loop of the `debtsByRound`
memo, carrying the 0-based round index. -/
def debtsAux (players : List Player) : Nat → List GameRound → List DebtItem
  | _, [] => []
  | idx, r :: rs =>
      (if r.bankerId = "" then [] else roundDebts players idx r) ++
        debtsAux players (idx + 1) rs

/-- The `debtsByRound` memo: the per-round DebtItem ledger. -/
def debtsByRound (players : List Player) (rounds : List GameRound) : List DebtItem :=
  debtsAux players 0 rounds

/-- Ascending order on work-list entries, the comparator
`(a, b) => a.amount - b.amount`. -/
def entryAsc (a b : Entry) : Prop := a.amount ≤ b.amount

instance : DecidableRel entryAsc := fun a b => by
  unfold entryAsc; infer_instance

instance : IsTotal Entry entryAsc := ⟨fun a b => le_total a.amount b.amount⟩

instance : IsTrans Entry entryAsc := ⟨fun _ _ _ h1 h2 => le_trans h1 h2⟩

/-- Descending order on transactions, the comparator
`(a, b) => b.amount - a.amount`. -/
def txDesc (a b : Transaction) : Prop := b.amount ≤ a.amount

instance : DecidableRel txDesc := fun a b => by
  unfold txDesc; infer_instance

instance : IsTotal Transaction txDesc := ⟨fun a b => le_total b.amount a.amount⟩

instance : IsTrans Transaction txDesc := ⟨fun _ _ _ h1 h2 => le_trans h2 h1⟩

/-- Descending order on per-person summaries by absolute net, the
comparator `(a, b) => Math.abs(b.net) - Math.abs(a.net)`. -/
def absNetDesc (a b : PersonSettlement) : Prop := abs b.net ≤ abs a.net

instance : DecidableRel absNetDesc := fun a b => by
  unfold absNetDesc; infer_instance

instance : IsTotal PersonSettlement absNetDesc :=
  ⟨fun a b => le_total (abs b.net) (abs a.net)⟩

instance : IsTrans PersonSettlement absNetDesc := ⟨fun _ _ _ h1 h2 => le_trans h2 h1⟩

/-- The debtor work list of `finalSettlement`:
`Object.entries(balances).filter(([, a]) => a < 0).map(([id, a]) => ({id, amount: -a}))`
sorted ascending by amount. -/
def debtorsOf (balances : List (String × ℤ)) : List Entry :=
  List.insertionSort entryAsc
    ((balances.filter fun kv => kv.2 < 0).map fun kv => Entry.mk kv.1 (-kv.2))

/-- The creditor work list of `finalSettlement`:
`Object.entries(balances).filter(([, a]) => a > 0).map(([id, a]) => ({id, amount: a}))`
sorted ascending by amount. -/
def creditorsOf (balances : List (String × ℤ)) : List Entry :=
  List.insertionSort entryAsc
    ((balances.filter fun kv => 0 < kv.2).map fun kv => Entry.mk kv.1 kv.2)

/-- The `while (debtorIndex < debtors.length && creditorIndex < creditors.length)`
loop of `finalSettlement`.  The in-place index advance and amount mutation
are modelled by consuming or replacing the list heads.  The fuel argument
only bounds the iteration count; every state the code can reach (all
work-list amounts strictly positive) advances at least one index per
iteration, so fuel `debtors.length + creditors.length` is never
exhausted on reachable inputs. -/
def settleLoop : Nat → List Entry → List Entry → List Transaction
  | 0, _, _ => []
  | _ + 1, [], _ => []
  | _ + 1, _ :: _, [] => []
  | n + 1, d :: ds, c :: cs =>
      let a := min d.amount c.amount
      if 0 < a then
        let d2 := d.amount - a
        let c2 := c.amount - a
        ⟨d.id, c.id, a⟩ ::
          settleLoop n (if d2 = 0 then ds else ⟨d.id, d2⟩ :: ds)
            (if c2 = 0 then cs else ⟨c.id, c2⟩ :: cs)
      else
        settleLoop n (if d.amount = 0 then ds else d :: ds)
          (if c.amount = 0 then cs else c :: cs)

/-- The Settlement Minimizer on an arbitrary Balance mapping: the greedy
pairing loop followed by the final descending sort
`transactions.sort((a, b) => b.amount - a.amount)`. -/
def settleFrom (balances : List (String × ℤ)) : List Transaction :=
  let ds := debtorsOf balances
  let cs := creditorsOf balances
  List.insertionSort txDesc (settleLoop (ds.length + cs.length) ds cs)

/-- The `finalSettlement` memo: the minimizer applied to the `totals`
Balance mapping. -/
def finalSettlement (players : List Player) (rounds : List GameRound) :
    List Transaction :=
  settleFrom (totals players rounds)

/-- Source `finalSettlement.filter(t => t.fromId === pid).reduce((s, t) => s + t.amount, 0)`. -/
def payOf (txs : List Transaction) (pid : String) : ℤ :=
  ((txs.filter fun t => t.fromId = pid).map Transaction.amount).sum

/-- Source `finalSettlement.filter(t => t.toId === pid).reduce((s, t) => s + t.amount, 0)`. -/
def recvOf (txs : List Transaction) (pid : String) : ℤ :=
  ((txs.filter fun t => t.toId = pid).map Transaction.amount).sum

/-- The `settlementByPerson` memo: per-person pay/receive/net summary,
sorted descending by `Math.abs(net)`. -/
def settlementByPerson (players : List Player) (rounds : List GameRound) :
    List PersonSettlement :=
  let txs := finalSettlement players rounds
  List.insertionSort absNetDesc
    (players.map fun p =>
      ⟨p.id, payOf txs p.id, recvOf txs p.id, recvOf txs p.id - payOf txs p.id⟩)

/-- The `removePlayer` handler: drop the roster entry, delete the player's
entries from every round's values, and clear `bankerId` where the player
was banker. -/
def removePlayer (pid : String) (players : List Player) (rounds : List GameRound) :
    List Player × List GameRound :=
  (players.filter fun p => p.id ≠ pid,
   rounds.map fun r =>
     { r with
       values := r.values.filter fun kv => kv.1 ≠ pid
       bankerId := if r.bankerId = pid then "" else r.bankerId })

/-! ## Characterization of the Balance Aggregator -/

/-- The total coerced amount that the entry loop of `totals` adds into
accumulator key `k` while iterating over the entry list `es`. -/
def entrySum (es : RoundValues) (k : String) : ℤ :=
  ((es.filter fun e => e.1 = k).map fun e => e.2.toFinite).sum

/-- What one round contributes to accumulator key `k` in `totals`. -/
def roundContrib (players : List Player) (r : GameRound) (k : String) : ℤ :=
  if r.bankerId = "" then 0 else entrySum (finalValues players r) k

/-- What a whole round list contributes to accumulator key `k`. -/
def totalOf (players : List Player) (rounds : List GameRound) (k : String) : ℤ :=
  (rounds.map fun r => roundContrib players r k).sum

/-- The normalized, coerced value that the `totals` loop ends up adding
for roster player `pid` in one round: the banker slot gets the coerced
negated participant sum, everyone else their own coerced recorded value. -/
def normValue (players : List Player) (r : GameRound) (pid : String) : ℤ :=
  if pid = r.bankerId then (-(sumParticipants players r)).toFinite
  else (lookupD r.values pid).toFinite

/-- Total amount of a work list. -/
def sumAmt (es : List Entry) : ℤ := (es.map Entry.amount).sum

/-- Total amount of the work-list entries carrying a given id. -/
def idSum (pid : String) (es : List Entry) : ℤ :=
  ((es.filter fun e => e.id = pid).map Entry.amount).sum

/-- The unsorted creditor list built from a Balance mapping. -/
def credConstruct (bal : List (String × ℤ)) : List Entry :=
  (bal.filter fun kv => 0 < kv.2).map fun kv => Entry.mk kv.1 kv.2

/-- The unsorted debtor list built from a Balance mapping (amounts are
negated so they come out positive). -/
def debtConstruct (bal : List (String × ℤ)) : List Entry :=
  (bal.filter fun kv => kv.2 < 0).map fun kv => Entry.mk kv.1 (-kv.2)

/-- The decision the inner loop of `debtsByRound` takes for a single
roster player, factored out of the fold. -/
def debtOf (idx : Nat) (bankerId : String) (vals : RoundValues) (p : Player) :
    Option DebtItem :=
  if p.id = bankerId then none
  else
    match lookupD vals p.id with
    | JsNum.nonfinite => none
    | JsNum.fin v =>
      if v = 0 then none
      else if 0 < v then some ⟨idx + 1, bankerId, bankerId, p.id, v⟩
      else some ⟨idx + 1, bankerId, p.id, bankerId, abs v⟩

/-- The Debt Expander contract exactly as the design document words it:
for each round in sequence order whose banker is set, for each non-banker
roster player in roster iteration order whose recorded value `v` is
finite and non-zero, exactly one DebtItem with `amount = |v|`, directed
`bankerId → player` when `v > 0` and `player → bankerId` when `v < 0`;
zero, missing or non-finite values produce no DebtItem. -/
def debtItemSpec (idx : Nat) (bankerId : String) (vals : RoundValues) (p : Player) :
    Option DebtItem :=
  if p.id = bankerId then none
  else
    match lookupD vals p.id with
    | JsNum.nonfinite => none
    | JsNum.fin v =>
      if v = 0 then none
      else some ⟨idx + 1, bankerId,
        if 0 < v then bankerId else p.id,
        if 0 < v then p.id else bankerId,
        abs v⟩

/-- The round-sequence structure of the Debt Expander contract. -/
def debtsSpecAux (players : List Player) : Nat → List GameRound → List DebtItem
  | _, [] => []
  | idx, r :: rs =>
      (if r.bankerId = "" then []
       else players.filterMap (debtItemSpec idx r.bankerId r.values)) ++
        debtsSpecAux players (idx + 1) rs

/-- The Debt Expander contract over a whole round list. -/
def debtsSpec (players : List Player) (rounds : List GameRound) : List DebtItem :=
  debtsSpecAux players 0 rounds

/-- The relabelling a DebtItem undergoes when its round moves one position
later in the round list (only the displayed 1-based index changes). -/
def bumpIdx (d : DebtItem) : DebtItem :=
  ⟨d.roundIndex + 1, d.bankerId, d.fromId, d.toId, d.amount⟩

def exA : Player := ⟨"A", "Alice"⟩

def exB : Player := ⟨"B", "Bob"⟩

def exC : Player := ⟨"C", "Carol"⟩

def exPlayers3 : List Player := [exA, exB, exC]

/-- The worked scenario of the design document: banker A, B enters 50,
C enters -20. -/
def exRoundS : GameRound := ⟨"r1", "A", [("B", JsNum.fin 50), ("C", JsNum.fin (-20))]⟩

/-- A round whose recorded banker id matches no roster player. -/
def exGhostRound : GameRound := ⟨"r1", "G", [("A", JsNum.fin 50)]⟩

/-- A round mixing one non-finite and one finite recorded value. -/
def exRoundN : GameRound := ⟨"r1", "A", [("B", JsNum.nonfinite), ("C", JsNum.fin 50)]⟩

/-- Round `exRoundN` with B's non-finite entry replaced by the value 0. -/
def exRoundN0 : GameRound :=
  ⟨exRoundN.id, exRoundN.bankerId,
    exRoundN.values.map fun kv => if kv.1 = "B" then (kv.1, JsNum.fin 0) else kv⟩

/-- Banker A, B enters 50. -/
def exRoundAB : GameRound := ⟨"r1", "A", [("B", JsNum.fin 50)]⟩

/-- A round with no banker assigned but a recorded value. -/
def exEmptyRound : GameRound := ⟨"e", "", [("B", JsNum.fin 99)]⟩

/-- Banker A, B enters an explicit 0. -/
def exZeroRound : GameRound := ⟨"r1", "A", [("B", JsNum.fin 0)]⟩

lemma entrySum_nil (k : String) : entrySum [] k = 0 := rfl

lemma entrySum_cons (e : String × JsNum) (es : RoundValues) (k : String) :
    entrySum (e :: es) k =
      (if e.1 = k then e.2.toFinite else 0) + entrySum es k := by
  by_cases h : e.1 = k <;> simp [entrySum, List.filter_cons, h]

lemma updList_map_keys (ks : List String) (f : String → ℤ) (pid : String) (x : ℤ) :
    updList (ks.map fun k => (k, f k)) pid x =
      ks.map fun k => (k, if k = pid then f k + x else f k) := by
  unfold updList
  rw [List.map_map]
  apply List.map_congr_left
  intro k _
  by_cases h : k = pid <;> simp [h]

lemma foldl_upd_map_keys (es : RoundValues) :
    ∀ (ks : List String) (f : String → ℤ),
      es.foldl (fun a e => updList a e.1 e.2.toFinite) (ks.map fun k => (k, f k)) =
        ks.map fun k => (k, f k + entrySum es k) := by
  induction es with
  | nil =>
    intro ks f
    simp [entrySum]
  | cons e es ih =>
    intro ks f
    rw [List.foldl_cons, updList_map_keys, ih]
    apply List.map_congr_left
    intro k _
    rw [entrySum_cons]
    by_cases h : k = e.1
    · simp [h, add_assoc]
    · have h2 : ¬e.1 = k := fun hh => h hh.symm
      simp [h, h2]

lemma applyRound_map_keys (players : List Player) (ks : List String)
    (f : String → ℤ) (r : GameRound) :
    applyRound players (ks.map fun k => (k, f k)) r =
      ks.map fun k => (k, f k + roundContrib players r k) := by
  unfold applyRound roundContrib
  by_cases h : r.bankerId = ""
  · simp [h]
  · simp only [h, if_false]
    exact foldl_upd_map_keys _ ks f

lemma foldl_applyRound_map_keys (players : List Player) :
    ∀ (rounds : List GameRound) (ks : List String) (f : String → ℤ),
      List.foldl (applyRound players) (ks.map fun k => (k, f k)) rounds =
        ks.map fun k => (k, f k + totalOf players rounds k) := by
  intro rounds
  induction rounds with
  | nil =>
    intro ks f
    simp [totalOf]
  | cons r rs ih =>
    intro ks f
    rw [List.foldl_cons, applyRound_map_keys, ih]
    apply List.map_congr_left
    intro k _
    simp [totalOf, add_assoc]

lemma totals_eq (players : List Player) (rounds : List GameRound) :
    totals players rounds =
      (firstKeys (players.map Player.id)).map fun k =>
        (k, totalOf players rounds k) := by
  unfold totals initAcc
  rw [foldl_applyRound_map_keys]
  simp

lemma keys_totals (players : List Player) (rounds : List GameRound) :
    (totals players rounds).map Prod.fst = firstKeys (players.map Player.id) := by
  rw [totals_eq, List.map_map]
  exact List.map_id (firstKeys (players.map Player.id))

lemma mem_foldl_ins (l : List String) :
    ∀ (acc : List String) (k : String),
      (k ∈ l.foldl (fun acc k => if k ∈ acc then acc else acc ++ [k]) acc) ↔
        k ∈ acc ∨ k ∈ l := by
  induction l with
  | nil => intro acc k; simp
  | cons x xs ih =>
    intro acc k
    rw [List.foldl_cons, ih]
    by_cases hx : x ∈ acc
    · simp only [hx, if_true, List.mem_cons]
      constructor
      · rintro (h | h)
        · exact Or.inl h
        · exact Or.inr (Or.inr h)
      · rintro (h | h | h)
        · exact Or.inl h
        · exact Or.inl (h ▸ hx)
        · exact Or.inr h
    · simp only [hx, if_false, List.mem_append, List.mem_singleton, List.mem_cons]
      tauto

lemma nodup_foldl_ins (l : List String) :
    ∀ (acc : List String), acc.Nodup →
      (l.foldl (fun acc k => if k ∈ acc then acc else acc ++ [k]) acc).Nodup := by
  induction l with
  | nil => intro acc h; simpa using h
  | cons x xs ih =>
    intro acc h
    rw [List.foldl_cons]
    by_cases hx : x ∈ acc
    · simpa [hx] using ih acc h
    · refine ih _ ?_
      simp only [hx, if_false]
      rw [List.nodup_append]
      refine ⟨h, List.nodup_singleton x, ?_⟩
      intro a ha hax
      rw [List.mem_singleton] at hax
      exact hx (hax ▸ ha)

lemma mem_firstKeys (l : List String) (k : String) :
    k ∈ firstKeys l ↔ k ∈ l := by
  unfold firstKeys
  rw [mem_foldl_ins]
  simp

lemma nodup_firstKeys (l : List String) : (firstKeys l).Nodup :=
  nodup_foldl_ins l [] List.nodup_nil

lemma lookup_map_keys_mem (ks : List String) (g : String → ℤ) (pid : String)
    (h : pid ∈ ks) :
    (ks.map fun k => (k, g k)).lookup pid = some (g pid) := by
  induction ks with
  | nil => simp at h
  | cons k ks ih =>
    by_cases hk : pid = k
    · subst hk
      simp [List.lookup]
    · have hb : (pid == k) = false := beq_eq_false_iff_ne.mpr hk
      have hmem : pid ∈ ks := by
        rcases List.mem_cons.mp h with h1 | h1
        · exact absurd h1 hk
        · exact h1
      simp [List.lookup, hb, ih hmem]

lemma lookup_map_keys_not_mem (ks : List String) (g : String → ℤ) (pid : String)
    (h : pid ∉ ks) :
    (ks.map fun k => (k, g k)).lookup pid = none := by
  induction ks with
  | nil => simp [List.lookup]
  | cons k ks ih =>
    rw [List.mem_cons, not_or] at h
    have hb : (pid == k) = false := beq_eq_false_iff_ne.mpr h.1
    simp [List.lookup, hb, ih h.2]

lemma balanceD_eq_totalOf (players : List Player) (rounds : List GameRound)
    (pid : String) (h : pid ∈ players.map Player.id) :
    balanceD players rounds pid = totalOf players rounds pid := by
  unfold balanceD
  rw [totals_eq, lookup_map_keys_mem _ _ _ ((mem_firstKeys _ _).mpr h)]
  rfl

lemma balanceD_not_mem (players : List Player) (rounds : List GameRound)
    (pid : String) (h : pid ∉ players.map Player.id) :
    balanceD players rounds pid = 0 := by
  unfold balanceD
  rw [totals_eq, lookup_map_keys_not_mem _ _ _ (fun hm => h ((mem_firstKeys _ _).mp hm))]
  rfl

/-! ## Per-player reading of one round's normalized contribution -/

@[simp] lemma JsNum.toFinite_fin (a : ℤ) : (JsNum.fin a).toFinite = a := rfl

@[simp] lemma JsNum.toFinite_nonfinite : JsNum.nonfinite.toFinite = 0 := rfl

@[simp] lemma JsNum.neg_fin (a : ℤ) : -(JsNum.fin a) = JsNum.fin (-a) := rfl

@[simp] lemma JsNum.neg_nonfinite : -JsNum.nonfinite = JsNum.nonfinite := rfl

@[simp] lemma JsNum.fin_add_fin (a b : ℤ) :
    JsNum.fin a + JsNum.fin b = JsNum.fin (a + b) := rfl

lemma lookup_none_of_not_mem (vals : RoundValues) (pid : String)
    (h : pid ∉ keysOf vals) : vals.lookup pid = none := by
  induction vals with
  | nil => simp [List.lookup]
  | cons e es ih =>
    unfold keysOf at h
    rw [List.map_cons, List.mem_cons, not_or] at h
    have hb : (pid == e.1) = false := beq_eq_false_iff_ne.mpr h.1
    simp [List.lookup, hb, ih h.2]

lemma lookup_isSome_of_mem (vals : RoundValues) (pid : String)
    (h : pid ∈ keysOf vals) : ∃ v, vals.lookup pid = some v := by
  induction vals with
  | nil => simp [keysOf] at h
  | cons e es ih =>
    by_cases hpe : pid = e.1
    · subst hpe
      exact ⟨e.2, by simp [List.lookup]⟩
    · have hb : (pid == e.1) = false := beq_eq_false_iff_ne.mpr hpe
      have hmem : pid ∈ keysOf es := by
        unfold keysOf at h ⊢
        rcases List.mem_cons.mp h with h1 | h1
        · exact absurd h1 hpe
        · exact h1
      obtain ⟨v, hv⟩ := ih hmem
      exact ⟨v, by simp [List.lookup, hb, hv]⟩

lemma lookup_append_vals (l1 l2 : RoundValues) (pid : String) :
    (l1 ++ l2).lookup pid =
      match l1.lookup pid with
      | some v => some v
      | none => l2.lookup pid := by
  induction l1 with
  | nil => simp [List.lookup]
  | cons e es ih =>
    by_cases hpe : pid = e.1
    · subst hpe
      simp [List.lookup]
    · have hb : (pid == e.1) = false := beq_eq_false_iff_ne.mpr hpe
      simp [List.lookup, hb, ih]

lemma filter_key_of_lookup_none (vals : RoundValues) (pid : String)
    (h : vals.lookup pid = none) :
    vals.filter (fun e => e.1 = pid) = [] := by
  induction vals with
  | nil => rfl
  | cons e es ih =>
    by_cases hpe : pid = e.1
    · subst hpe
      simp [List.lookup] at h
    · have hb : (pid == e.1) = false := beq_eq_false_iff_ne.mpr hpe
      rw [List.lookup] at h
      rw [hb] at h
      have h2 : ¬e.1 = pid := fun hh => hpe hh.symm
      simp [List.filter_cons, h2, ih h]

lemma filter_key_of_lookup_some (vals : RoundValues) (pid : String) (v : JsNum)
    (hnd : (keysOf vals).Nodup) (h : vals.lookup pid = some v) :
    vals.filter (fun e => e.1 = pid) = [(pid, v)] := by
  induction vals with
  | nil => simp [List.lookup] at h
  | cons e es ih =>
    obtain ⟨a, w⟩ := e
    unfold keysOf at hnd
    rw [List.map_cons, List.nodup_cons] at hnd
    by_cases hpe : pid = a
    · have hbeq : (pid == a) = true := beq_iff_eq.mpr hpe
      rw [List.lookup] at h
      rw [hbeq] at h
      have hv : w = v := by simpa using h
      have hnone : es.lookup pid = none := by
        apply lookup_none_of_not_mem
        rw [hpe]
        exact hnd.1
      have hrest : es.filter (fun x => x.1 = pid) = [] :=
        filter_key_of_lookup_none es pid hnone
      rw [List.filter_cons, if_pos (by simp [hpe])]
      rw [hrest, hv, hpe]
    · have hb : (pid == a) = false := beq_eq_false_iff_ne.mpr hpe
      rw [List.lookup] at h
      rw [hb] at h
      have h2 : ¬a = pid := fun hh => hpe hh.symm
      rw [List.filter_cons, if_neg (by simp [h2])]
      exact ih hnd.2 h

lemma entrySum_eq_lookupD (vals : RoundValues) (pid : String)
    (hnd : (keysOf vals).Nodup) :
    entrySum vals pid = (lookupD vals pid).toFinite := by
  unfold entrySum lookupD
  cases hlk : vals.lookup pid with
  | none =>
    rw [filter_key_of_lookup_none vals pid hlk]
    simp
  | some v =>
    rw [filter_key_of_lookup_some vals pid v hnd hlk]
    simp

lemma keysOf_override (vals : RoundValues) (b : String) (x : JsNum) :
    keysOf (vals.map fun kv => if kv.1 = b then (kv.1, x) else kv) = keysOf vals := by
  unfold keysOf
  rw [List.map_map]
  apply List.map_congr_left
  intro kv _
  by_cases h : kv.1 = b <;> simp [h]

lemma nodup_keysOf_finalValues (players : List Player) (r : GameRound)
    (hnd : (keysOf r.values).Nodup) :
    (keysOf (finalValues players r)).Nodup := by
  unfold finalValues
  by_cases hmem : r.bankerId ∈ keysOf r.values
  · rw [if_pos hmem, keysOf_override]
    exact hnd
  · rw [if_neg hmem]
    unfold keysOf at hnd hmem ⊢
    rw [List.map_append, List.nodup_append]
    refine ⟨hnd, by simp, ?_⟩
    intro a ha hax
    simp only [List.map_cons, List.map_nil, List.mem_singleton] at hax
    exact hmem (hax ▸ ha)

lemma lookup_override_ne (vals : RoundValues) (b : String) (x : JsNum)
    (pid : String) (hne : pid ≠ b) :
    (vals.map fun kv => if kv.1 = b then (kv.1, x) else kv).lookup pid =
      vals.lookup pid := by
  induction vals with
  | nil => simp
  | cons e es ih =>
    obtain ⟨a, w⟩ := e
    rw [List.map_cons]
    by_cases heb : a = b
    · rw [if_pos (by simpa using heb)]
      have hb : (pid == a) = false :=
        beq_eq_false_iff_ne.mpr (fun hh => hne (hh.trans heb))
      rw [List.lookup, List.lookup]
      rw [hb]
      exact ih
    · rw [if_neg (by simpa using heb)]
      rw [List.lookup, List.lookup]
      cases hbeq : pid == a
      · exact ih
      · rfl

lemma lookup_override_self (vals : RoundValues) (b : String) (x : JsNum)
    (hmem : b ∈ keysOf vals) :
    (vals.map fun kv => if kv.1 = b then (kv.1, x) else kv).lookup b = some x := by
  induction vals with
  | nil => simp [keysOf] at hmem
  | cons e es ih =>
    obtain ⟨a, w⟩ := e
    rw [List.map_cons]
    by_cases heb : a = b
    · rw [if_pos (by simpa using heb)]
      have hbeq : (b == a) = true := beq_iff_eq.mpr heb.symm
      rw [List.lookup]
      rw [hbeq]
    · rw [if_neg (by simpa using heb)]
      have hbeq : (b == a) = false :=
        beq_eq_false_iff_ne.mpr (fun hh => heb hh.symm)
      have hmem2 : b ∈ keysOf es := by
        unfold keysOf at hmem ⊢
        rcases List.mem_cons.mp hmem with h1 | h1
        · exact absurd h1 (fun hh => heb hh.symm)
        · exact h1
      rw [List.lookup]
      rw [hbeq]
      exact ih hmem2

lemma lookup_finalValues (players : List Player) (r : GameRound) (pid : String) :
    (finalValues players r).lookup pid =
      if pid = r.bankerId then some (-(sumParticipants players r))
      else r.values.lookup pid := by
  unfold finalValues
  by_cases hmem : r.bankerId ∈ keysOf r.values
  · rw [if_pos hmem]
    by_cases hpb : pid = r.bankerId
    · rw [if_pos hpb, hpb]
      exact lookup_override_self r.values r.bankerId _ hmem
    · rw [if_neg hpb]
      exact lookup_override_ne r.values r.bankerId _ pid hpb
  · rw [if_neg hmem, lookup_append_vals]
    by_cases hpb : pid = r.bankerId
    · rw [if_pos hpb, hpb]
      rw [lookup_none_of_not_mem r.values r.bankerId hmem]
      simp [List.lookup]
    · rw [if_neg hpb]
      have hb : (pid == r.bankerId) = false := beq_eq_false_iff_ne.mpr hpb
      cases hlk : r.values.lookup pid
      · simp [hlk, List.lookup, hb]
      · simp [hlk]

lemma entrySum_finalValues_eq_normValue (players : List Player) (r : GameRound)
    (hnd : (keysOf r.values).Nodup) (pid : String) :
    entrySum (finalValues players r) pid = normValue players r pid := by
  rw [entrySum_eq_lookupD _ _ (nodup_keysOf_finalValues players r hnd)]
  unfold lookupD normValue
  rw [lookup_finalValues]
  by_cases h : pid = r.bankerId <;> simp [h, lookupD]

lemma roundContrib_eq_normValue (players : List Player) (r : GameRound)
    (hb : r.bankerId ≠ "") (hnd : (keysOf r.values).Nodup) (pid : String) :
    roundContrib players r pid = normValue players r pid := by
  unfold roundContrib
  rw [if_neg hb]
  exact entrySum_finalValues_eq_normValue players r hnd pid

/-! ## Zero-sum of a normalized round -/

lemma foldl_add_fin (l : List JsNum) :
    ∀ c : ℤ, (∀ x ∈ l, x ≠ JsNum.nonfinite) →
      l.foldl (· + ·) (JsNum.fin c) = JsNum.fin (c + (l.map JsNum.toFinite).sum) := by
  induction l with
  | nil => intro c _; simp
  | cons x xs ih =>
    intro c h
    cases x with
    | nonfinite => exact absurd rfl (h _ (List.mem_cons_self _ _))
    | fin q =>
      rw [List.foldl_cons, JsNum.fin_add_fin, ih (c + q) (fun y hy => h y (List.mem_cons_of_mem _ hy))]
      simp [add_assoc]

lemma sumParticipants_fin (players : List Player) (r : GameRound)
    (hfin : ∀ p ∈ players, p.id ≠ r.bankerId →
      lookupD r.values p.id ≠ JsNum.nonfinite) :
    sumParticipants players r =
      JsNum.fin (((players.filter fun p => p.id ≠ r.bankerId).map fun p =>
        (lookupD r.values p.id).toFinite).sum) := by
  unfold sumParticipants
  rw [foldl_add_fin]
  · rw [List.map_map, zero_add]
    rfl
  · intro x hx
    rw [List.mem_map] at hx
    obtain ⟨p, hp, hpx⟩ := hx
    rw [List.mem_filter] at hp
    rw [← hpx]
    exact hfin p hp.1 (by simpa using hp.2)

lemma sum_map_partition {α : Type} (l : List α) (p : α → Bool) (f : α → ℤ) :
    (l.map f).sum =
      ((l.filter p).map f).sum + ((l.filter fun a => !(p a)).map f).sum := by
  induction l with
  | nil => simp
  | cons x xs ih =>
    cases hp : p x <;> simp [List.filter_cons, hp, ih] <;> ring

lemma filter_id_single (players : List Player) (b : String)
    (hnd : (players.map Player.id).Nodup) (hmem : b ∈ players.map Player.id) :
    ∃ q : Player, players.filter (fun p => p.id = b) = [q] ∧ q.id = b := by
  induction players with
  | nil => simp at hmem
  | cons p ps ih =>
    rw [List.map_cons, List.nodup_cons] at hnd
    by_cases hp : p.id = b
    · refine ⟨p, ?_, hp⟩
      have hrest : ps.filter (fun q => q.id = b) = [] := by
        rw [List.filter_eq_nil_iff]
        intro a ha
        simp only [decide_eq_true_eq]
        intro hab
        apply hnd.1
        rw [hp, ← hab]
        exact List.mem_map_of_mem Player.id ha
      rw [List.filter_cons, if_pos (by simp [hp]), hrest]
    · have hmem2 : b ∈ ps.map Player.id := by
        rw [List.map_cons, List.mem_cons] at hmem
        rcases hmem with h1 | h1
        · exact absurd h1.symm hp
        · exact h1
      rw [List.filter_cons, if_neg (by simp [hp])]
      exact ih hnd.2 hmem2

/-- Zero-sum of one normalized round: when the banker is on a
duplicate-free roster and every other roster player's recorded value is
finite, the normalized coerced values over the roster sum to 0. -/
lemma normValue_sum_zero (players : List Player) (r : GameRound)
    (hnd : (players.map Player.id).Nodup)
    (hb : r.bankerId ∈ players.map Player.id)
    (hfin : ∀ p ∈ players, p.id ≠ r.bankerId →
      lookupD r.values p.id ≠ JsNum.nonfinite) :
    (players.map fun p => normValue players r p.id).sum = 0 := by
  have hsp := sumParticipants_fin players r hfin
  rw [sum_map_partition players (fun p => p.id = r.bankerId)
    (fun p => normValue players r p.id)]
  have hfe : (players.filter fun a => !(decide (a.id = r.bankerId))) =
      players.filter fun p => p.id ≠ r.bankerId := by
    apply List.filter_congr
    intro a _
    simp
  obtain ⟨q, hq, hqid⟩ := filter_id_single players r.bankerId hnd hb
  have h1 : ((players.filter fun p => p.id = r.bankerId).map fun p =>
      normValue players r p.id).sum =
        -(((players.filter fun p => p.id ≠ r.bankerId).map fun p =>
          (lookupD r.values p.id).toFinite).sum) := by
    rw [hq]
    simp [normValue, hqid, hsp]
  have h2 : ((players.filter fun a => !(decide (a.id = r.bankerId))).map fun p =>
      normValue players r p.id).sum =
        ((players.filter fun p => p.id ≠ r.bankerId).map fun p =>
          (lookupD r.values p.id).toFinite).sum := by
    rw [hfe]
    congr 1
    apply List.map_congr_left
    intro a ha
    rw [List.mem_filter] at ha
    have : a.id ≠ r.bankerId := by simpa using ha.2
    simp [normValue, this]
  rw [h1, h2]
  ring

lemma sum_map_swap {α β : Type} (ps : List α) (rs : List β) (g : α → β → ℤ) :
    (ps.map fun p => (rs.map fun r => g p r).sum).sum =
      (rs.map fun r => (ps.map fun p => g p r).sum).sum := by
  induction ps with
  | nil => simp
  | cons p ps ih =>
    rw [List.map_cons, List.sum_cons, ih]
    rw [← List.sum_map_add]
    apply congrArg
    apply List.map_congr_left
    intro r _
    simp

/-! ## The settlement loop -/

lemma sumAmt_nil : sumAmt [] = 0 := rfl

lemma sumAmt_cons (e : Entry) (es : List Entry) :
    sumAmt (e :: es) = e.amount + sumAmt es := by
  simp [sumAmt]

lemma idSum_nil (pid : String) : idSum pid [] = 0 := rfl

lemma idSum_cons (pid : String) (e : Entry) (es : List Entry) :
    idSum pid (e :: es) = (if e.id = pid then e.amount else 0) + idSum pid es := by
  by_cases h : e.id = pid <;> simp [idSum, List.filter_cons, h]

lemma payOf_nil (pid : String) : payOf [] pid = 0 := rfl

lemma payOf_cons (t : Transaction) (ts : List Transaction) (pid : String) :
    payOf (t :: ts) pid = (if t.fromId = pid then t.amount else 0) + payOf ts pid := by
  by_cases h : t.fromId = pid <;> simp [payOf, List.filter_cons, h]

lemma recvOf_nil (pid : String) : recvOf [] pid = 0 := rfl

lemma recvOf_cons (t : Transaction) (ts : List Transaction) (pid : String) :
    recvOf (t :: ts) pid = (if t.toId = pid then t.amount else 0) + recvOf ts pid := by
  by_cases h : t.toId = pid <;> simp [recvOf, List.filter_cons, h]

lemma payOf_perm (ts1 ts2 : List Transaction) (h : ts1.Perm ts2) (pid : String) :
    payOf ts1 pid = payOf ts2 pid := by
  unfold payOf
  exact List.Perm.sum_eq (List.Perm.map _ (h.filter _))

lemma recvOf_perm (ts1 ts2 : List Transaction) (h : ts1.Perm ts2) (pid : String) :
    recvOf ts1 pid = recvOf ts2 pid := by
  unfold recvOf
  exact List.Perm.sum_eq (List.Perm.map _ (h.filter _))

lemma idSum_perm (es1 es2 : List Entry) (h : es1.Perm es2) (pid : String) :
    idSum pid es1 = idSum pid es2 := by
  unfold idSum
  exact List.Perm.sum_eq (List.Perm.map _ (h.filter _))

lemma sumAmt_perm (es1 es2 : List Entry) (h : es1.Perm es2) :
    sumAmt es1 = sumAmt es2 := by
  unfold sumAmt
  exact List.Perm.sum_eq (List.Perm.map _ h)

lemma sumAmt_nonneg (es : List Entry) (h : ∀ e ∈ es, 0 < e.amount) :
    0 ≤ sumAmt es := by
  apply List.sum_nonneg
  intro x hx
  rw [List.mem_map] at hx
  obtain ⟨e, he, hex⟩ := hx
  rw [← hex]
  exact le_of_lt (h e he)

lemma sumAmt_pos (es : List Entry) (h : ∀ e ∈ es, 0 < e.amount)
    (hne : es ≠ []) : 0 < sumAmt es := by
  cases es with
  | nil => exact absurd rfl hne
  | cons e es =>
    rw [sumAmt_cons]
    have h1 : 0 < e.amount := h e (List.mem_cons_self _ _)
    have h2 : 0 ≤ sumAmt es := sumAmt_nonneg es (fun x hx => h x (List.mem_cons_of_mem _ hx))
    omega

lemma nil_of_sumAmt_zero (es : List Entry) (h : ∀ e ∈ es, 0 < e.amount)
    (hz : sumAmt es = 0) : es = [] := by
  by_contra hne
  have := sumAmt_pos es h hne
  omega

/-- Every transaction emitted by the loop has a strictly positive amount
(the `if (amount > 0)` guard). -/
lemma settleLoop_pos (n : Nat) : ∀ (ds cs : List Entry) (t : Transaction),
    t ∈ settleLoop n ds cs → 0 < t.amount := by
  induction n with
  | zero =>
    intro ds cs t ht
    simp [settleLoop] at ht
  | succ n ih =>
    intro ds cs t ht
    cases ds with
    | nil => simp [settleLoop] at ht
    | cons d ds =>
      cases cs with
      | nil => simp [settleLoop] at ht
      | cons c cs =>
        simp only [settleLoop] at ht
        by_cases ha : 0 < min d.amount c.amount
        · rw [if_pos ha] at ht
          rcases List.mem_cons.mp ht with h1 | h1
          · rw [h1]
            exact ha
          · exact ih _ _ t h1
        · rw [if_neg ha] at ht
          exact ih _ _ t ht

/-- Every transaction's payer id comes from the debtor list and payee id
from the creditor list. -/
lemma settleLoop_ids (n : Nat) : ∀ (ds cs : List Entry) (t : Transaction),
    t ∈ settleLoop n ds cs →
      t.fromId ∈ ds.map Entry.id ∧ t.toId ∈ cs.map Entry.id := by
  induction n with
  | zero =>
    intro ds cs t ht
    simp [settleLoop] at ht
  | succ n ih =>
    intro ds cs t ht
    cases ds with
    | nil => simp [settleLoop] at ht
    | cons d ds =>
      cases cs with
      | nil => simp [settleLoop] at ht
      | cons c cs =>
        simp only [settleLoop] at ht
        rw [List.map_cons, List.map_cons]
        by_cases ha : 0 < min d.amount c.amount
        · rw [if_pos ha] at ht
          rcases List.mem_cons.mp ht with h1 | h1
          · constructor
            · rw [h1]
              exact List.mem_cons_self _ _
            · rw [h1]
              exact List.mem_cons_self _ _
          · obtain ⟨hf, htid⟩ := ih _ _ t h1
            constructor
            · by_cases hd2 : d.amount - min d.amount c.amount = 0
              · rw [if_pos hd2] at hf
                exact List.mem_cons_of_mem _ hf
              · rw [if_neg hd2, List.map_cons] at hf
                rcases List.mem_cons.mp hf with h2 | h2
                · rw [h2]
                  exact List.mem_cons_self _ _
                · exact List.mem_cons_of_mem _ h2
            · by_cases hc2 : c.amount - min d.amount c.amount = 0
              · rw [if_pos hc2] at htid
                exact List.mem_cons_of_mem _ htid
              · rw [if_neg hc2, List.map_cons] at htid
                rcases List.mem_cons.mp htid with h2 | h2
                · rw [h2]
                  exact List.mem_cons_self _ _
                · exact List.mem_cons_of_mem _ h2
        · rw [if_neg ha] at ht
          obtain ⟨hf, htid⟩ := ih _ _ t ht
          constructor
          · by_cases hd0 : d.amount = 0
            · rw [if_pos hd0] at hf
              exact List.mem_cons_of_mem _ hf
            · rw [if_neg hd0, List.map_cons] at hf
              exact hf
          · by_cases hc0 : c.amount = 0
            · rw [if_pos hc0] at htid
              exact List.mem_cons_of_mem _ htid
            · rw [if_neg hc0, List.map_cons] at htid
              exact htid

/-- When every work-list amount is strictly positive, every iteration
retires at least one list entry, so at most
`debtors + creditors - 1` transactions are emitted (truncated
subtraction). -/
lemma settleLoop_length (n : Nat) : ∀ (ds cs : List Entry),
    (∀ e ∈ ds, 0 < e.amount) → (∀ e ∈ cs, 0 < e.amount) →
    (settleLoop n ds cs).length ≤ ds.length + cs.length - 1 := by
  induction n with
  | zero =>
    intro ds cs _ _
    simp [settleLoop]
  | succ n ih =>
    intro ds cs hds hcs
    cases ds with
    | nil => simp [settleLoop]
    | cons d ds =>
      cases cs with
      | nil => simp [settleLoop]
      | cons c cs =>
        have hd : 0 < d.amount := hds d (List.mem_cons_self _ _)
        have hc : 0 < c.amount := hcs c (List.mem_cons_self _ _)
        have ha : 0 < min d.amount c.amount := lt_min hd hc
        have hminle1 : min d.amount c.amount ≤ d.amount := min_le_left _ _
        have hminle2 : min d.amount c.amount ≤ c.amount := min_le_right _ _
        have hchoice : d.amount - min d.amount c.amount = 0 ∨
            c.amount - min d.amount c.amount = 0 := by
          rcases min_choice d.amount c.amount with h | h
          · left
            omega
          · right
            omega
        have hdtail : ∀ e ∈ ds, 0 < e.amount :=
          fun e he => hds e (List.mem_cons_of_mem _ he)
        have hctail : ∀ e ∈ cs, 0 < e.amount :=
          fun e he => hcs e (List.mem_cons_of_mem _ he)
        simp only [settleLoop]
        rw [if_pos ha]
        by_cases hd2 : d.amount - min d.amount c.amount = 0 <;>
          by_cases hc2 : c.amount - min d.amount c.amount = 0
        · rw [if_pos hd2, if_pos hc2]
          have := ih ds cs hdtail hctail
          simp only [List.length_cons]
          omega
        · rw [if_pos hd2, if_neg hc2]
          have hpos : ∀ e ∈ (⟨c.id, c.amount - min d.amount c.amount⟩ : Entry) :: cs,
              0 < e.amount := by
            intro e he
            rcases List.mem_cons.mp he with h1 | h1
            · rw [h1]
              show 0 < c.amount - min d.amount c.amount
              omega
            · exact hctail e h1
          have := ih ds _ hdtail hpos
          simp only [List.length_cons] at this ⊢
          omega
        · rw [if_neg hd2, if_pos hc2]
          have hpos : ∀ e ∈ (⟨d.id, d.amount - min d.amount c.amount⟩ : Entry) :: ds,
              0 < e.amount := by
            intro e he
            rcases List.mem_cons.mp he with h1 | h1
            · rw [h1]
              show 0 < d.amount - min d.amount c.amount
              omega
            · exact hdtail e h1
          have := ih _ cs hpos hctail
          simp only [List.length_cons] at this ⊢
          omega
        · rcases hchoice with h | h
          · exact absurd h hd2
          · exact absurd h hc2

lemma payOf_mk_cons (f t : String) (a : ℤ) (ts : List Transaction) (pid : String) :
    payOf (⟨f, t, a⟩ :: ts) pid = (if f = pid then a else 0) + payOf ts pid :=
  payOf_cons _ _ _

lemma recvOf_mk_cons (f t : String) (a : ℤ) (ts : List Transaction) (pid : String) :
    recvOf (⟨f, t, a⟩ :: ts) pid = (if t = pid then a else 0) + recvOf ts pid :=
  recvOf_cons _ _ _

lemma idSum_mk_cons (pid i : String) (a : ℤ) (es : List Entry) :
    idSum pid (⟨i, a⟩ :: es) = (if i = pid then a else 0) + idSum pid es :=
  idSum_cons _ _ _

/-- The bookkeeping invariant of the greedy loop: when the outstanding
debtor total equals the outstanding creditor total (so the loop drains
both lists), each id's received minus paid total over the emitted
transactions equals its outstanding creditor total minus its outstanding
debtor total. -/
lemma settleLoop_closure (n : Nat) : ∀ (ds cs : List Entry),
    (∀ e ∈ ds, 0 < e.amount) → (∀ e ∈ cs, 0 < e.amount) →
    sumAmt ds = sumAmt cs → ds.length + cs.length ≤ n → ∀ pid : String,
    recvOf (settleLoop n ds cs) pid - payOf (settleLoop n ds cs) pid =
      idSum pid cs - idSum pid ds := by
  induction n with
  | zero =>
    intro ds cs _ _ _ hn pid
    have hds : ds = [] := List.length_eq_zero.mp (by omega)
    have hcs : cs = [] := List.length_eq_zero.mp (by omega)
    rw [hds, hcs]
    simp [settleLoop, payOf, recvOf, idSum]
  | succ n ih =>
    intro ds cs hds hcs hsum hn pid
    cases ds with
    | nil =>
      have hcs0 : cs = [] := by
        apply nil_of_sumAmt_zero cs hcs
        rw [← hsum]
        rfl
      rw [hcs0]
      simp [settleLoop, payOf, recvOf, idSum]
    | cons d ds =>
      cases cs with
      | nil =>
        exfalso
        have h1 : 0 < sumAmt (d :: ds) := sumAmt_pos _ hds (by simp)
        rw [hsum] at h1
        simp [sumAmt] at h1
      | cons c cs =>
        have hd : 0 < d.amount := hds d (List.mem_cons_self _ _)
        have hc : 0 < c.amount := hcs c (List.mem_cons_self _ _)
        have ha : 0 < min d.amount c.amount := lt_min hd hc
        have hminle1 : min d.amount c.amount ≤ d.amount := min_le_left _ _
        have hminle2 : min d.amount c.amount ≤ c.amount := min_le_right _ _
        have hchoice : d.amount - min d.amount c.amount = 0 ∨
            c.amount - min d.amount c.amount = 0 := by
          rcases min_choice d.amount c.amount with h | h
          · left
            omega
          · right
            omega
        have hdtail : ∀ e ∈ ds, 0 < e.amount :=
          fun e he => hds e (List.mem_cons_of_mem _ he)
        have hctail : ∀ e ∈ cs, 0 < e.amount :=
          fun e he => hcs e (List.mem_cons_of_mem _ he)
        rw [sumAmt_cons, sumAmt_cons] at hsum
        simp only [List.length_cons] at hn
        simp only [settleLoop]
        rw [if_pos ha]
        rw [recvOf_mk_cons, payOf_mk_cons, idSum_cons, idSum_cons]
        by_cases hd2 : d.amount - min d.amount c.amount = 0 <;>
          by_cases hc2 : c.amount - min d.amount c.amount = 0
        · rw [if_pos hd2, if_pos hc2]
          have hIH := ih ds cs hdtail hctail (by omega) (by omega) pid
          split_ifs <;> omega
        · rw [if_pos hd2, if_neg hc2]
          have hpos : ∀ e ∈ (⟨c.id, c.amount - min d.amount c.amount⟩ : Entry) :: cs,
              0 < e.amount := by
            intro e he
            rcases List.mem_cons.mp he with h1 | h1
            · rw [h1]
              show 0 < c.amount - min d.amount c.amount
              omega
            · exact hctail e h1
          have hIH := ih ds _ hdtail hpos
            (by rw [sumAmt_cons]; show sumAmt ds = c.amount - min d.amount c.amount + sumAmt cs; omega)
            (by simp only [List.length_cons]; omega) pid
          rw [idSum_mk_cons] at hIH
          split_ifs at hIH ⊢ <;> omega
        · rw [if_neg hd2, if_pos hc2]
          have hpos : ∀ e ∈ (⟨d.id, d.amount - min d.amount c.amount⟩ : Entry) :: ds,
              0 < e.amount := by
            intro e he
            rcases List.mem_cons.mp he with h1 | h1
            · rw [h1]
              show 0 < d.amount - min d.amount c.amount
              omega
            · exact hdtail e h1
          have hIH := ih _ cs hpos hctail
            (by rw [sumAmt_cons]; show d.amount - min d.amount c.amount + sumAmt ds = sumAmt cs; omega)
            (by simp only [List.length_cons]; omega) pid
          rw [idSum_mk_cons] at hIH
          split_ifs at hIH ⊢ <;> omega
        · rcases hchoice with h | h
          · exact absurd h hd2
          · exact absurd h hc2

/-! ## Debtor and creditor work lists -/

lemma debtorsOf_eq (bal : List (String × ℤ)) :
    debtorsOf bal = List.insertionSort entryAsc (debtConstruct bal) := rfl

lemma creditorsOf_eq (bal : List (String × ℤ)) :
    creditorsOf bal = List.insertionSort entryAsc (credConstruct bal) := rfl

lemma credConstruct_cons (kv : String × ℤ) (bal : List (String × ℤ)) :
    credConstruct (kv :: bal) =
      if 0 < kv.2 then Entry.mk kv.1 kv.2 :: credConstruct bal
      else credConstruct bal := by
  by_cases h : 0 < kv.2 <;> simp [credConstruct, List.filter_cons, h]

lemma debtConstruct_cons (kv : String × ℤ) (bal : List (String × ℤ)) :
    debtConstruct (kv :: bal) =
      if kv.2 < 0 then Entry.mk kv.1 (-kv.2) :: debtConstruct bal
      else debtConstruct bal := by
  by_cases h : kv.2 < 0 <;> simp [debtConstruct, List.filter_cons, h]

lemma pos_credConstruct (bal : List (String × ℤ)) :
    ∀ e ∈ credConstruct bal, 0 < e.amount := by
  intro e he
  rw [credConstruct, List.mem_map] at he
  obtain ⟨kv, hkv, hkve⟩ := he
  rw [List.mem_filter] at hkv
  rw [← hkve]
  show 0 < kv.2
  simpa using hkv.2

lemma pos_debtConstruct (bal : List (String × ℤ)) :
    ∀ e ∈ debtConstruct bal, 0 < e.amount := by
  intro e he
  rw [debtConstruct, List.mem_map] at he
  obtain ⟨kv, hkv, hkve⟩ := he
  rw [List.mem_filter] at hkv
  rw [← hkve]
  show 0 < -kv.2
  have : kv.2 < 0 := by simpa using hkv.2
  omega

lemma ids_credConstruct (bal : List (String × ℤ)) :
    ∀ e ∈ credConstruct bal, e.id ∈ bal.map Prod.fst := by
  intro e he
  rw [credConstruct, List.mem_map] at he
  obtain ⟨kv, hkv, hkve⟩ := he
  rw [List.mem_filter] at hkv
  rw [← hkve]
  exact List.mem_map_of_mem Prod.fst hkv.1

lemma ids_debtConstruct (bal : List (String × ℤ)) :
    ∀ e ∈ debtConstruct bal, e.id ∈ bal.map Prod.fst := by
  intro e he
  rw [debtConstruct, List.mem_map] at he
  obtain ⟨kv, hkv, hkve⟩ := he
  rw [List.mem_filter] at hkv
  rw [← hkve]
  exact List.mem_map_of_mem Prod.fst hkv.1

lemma idSum_zero_of_ids (es : List Entry) (pid : String)
    (h : ∀ e ∈ es, e.id ≠ pid) : idSum pid es = 0 := by
  unfold idSum
  rw [List.filter_eq_nil_iff.mpr (by intro e he; simpa using h e he)]
  rfl

lemma keys_of_pairs (ks : List String) (g : String → ℤ) :
    (ks.map fun k => (k, g k)).map Prod.fst = ks := by
  rw [List.map_map]
  exact List.map_id ks

/-- On a duplicate-free Balance mapping, a given id's creditor total
minus its debtor total recovers that id's balance. -/
lemma idSum_constructs (ks : List String) (g : String → ℤ) (pid : String)
    (hnd : ks.Nodup) :
    idSum pid (credConstruct (ks.map fun k => (k, g k))) -
      idSum pid (debtConstruct (ks.map fun k => (k, g k))) =
      if pid ∈ ks then g pid else 0 := by
  induction ks with
  | nil => simp [credConstruct, debtConstruct, idSum]
  | cons k ks ih =>
    rw [List.nodup_cons] at hnd
    have hih := ih hnd.2
    rw [List.map_cons, credConstruct_cons, debtConstruct_cons]
    by_cases hkp : k = pid
    · have hpid : pid ∉ ks := by
        rw [← hkp]
        exact hnd.1
      have hzc : idSum pid (credConstruct (ks.map fun x => (x, g x))) = 0 := by
        apply idSum_zero_of_ids
        intro e he hep
        apply hpid
        rw [← hep]
        have := ids_credConstruct _ e he
        rwa [keys_of_pairs] at this
      have hzd : idSum pid (debtConstruct (ks.map fun x => (x, g x))) = 0 := by
        apply idSum_zero_of_ids
        intro e he hep
        apply hpid
        rw [← hep]
        have := ids_debtConstruct _ e he
        rwa [keys_of_pairs] at this
      have hmem : pid ∈ k :: ks := by
        rw [← hkp]
        exact List.mem_cons_self _ _
      have hgp : g pid = g k := by rw [hkp]
      rw [if_pos hmem]
      rcases lt_trichotomy (g k) 0 with hg | hg | hg
      · rw [if_neg (show ¬0 < (k, g k).2 by show ¬(0:ℤ) < g k; omega),
          if_pos (show (k, g k).2 < 0 from hg)]
        rw [idSum_mk_cons, if_pos (show (k, g k).1 = pid from hkp), hzc, hzd]
        show 0 - (-(g k) + 0) = g pid
        omega
      · rw [if_neg (show ¬0 < (k, g k).2 by show ¬(0:ℤ) < g k; omega),
          if_neg (show ¬(k, g k).2 < 0 by show ¬g k < (0:ℤ); omega)]
        rw [hzc, hzd]
        omega
      · rw [if_pos (show 0 < (k, g k).2 from hg),
          if_neg (show ¬(k, g k).2 < 0 by show ¬g k < (0:ℤ); omega)]
        rw [idSum_mk_cons, if_pos (show (k, g k).1 = pid from hkp), hzc, hzd]
        show g k + 0 - 0 = g pid
        omega
    · have hcond : (if pid ∈ k :: ks then g pid else 0) =
          (if pid ∈ ks then g pid else 0) := by
        by_cases hpmem : pid ∈ ks
        · rw [if_pos hpmem, if_pos (List.mem_cons_of_mem _ hpmem)]
        · rw [if_neg hpmem, if_neg (show pid ∉ k :: ks by
            intro hmm
            rcases List.mem_cons.mp hmm with h1 | h1
            · exact hkp h1.symm
            · exact hpmem h1)]
      rw [hcond]
      rcases lt_trichotomy (g k) 0 with hg | hg | hg
      · rw [if_neg (show ¬0 < (k, g k).2 by show ¬(0:ℤ) < g k; omega),
          if_pos (show (k, g k).2 < 0 from hg)]
        rw [idSum_mk_cons, if_neg (show ¬(k, g k).1 = pid from hkp)]
        omega
      · rw [if_neg (show ¬0 < (k, g k).2 by show ¬(0:ℤ) < g k; omega),
          if_neg (show ¬(k, g k).2 < 0 by show ¬g k < (0:ℤ); omega)]
        exact hih
      · rw [if_pos (show 0 < (k, g k).2 from hg),
          if_neg (show ¬(k, g k).2 < 0 by show ¬g k < (0:ℤ); omega)]
        rw [idSum_mk_cons, if_neg (show ¬(k, g k).1 = pid from hkp)]
        omega

/-- Creditor total minus debtor total over any Balance mapping equals the
sum of all balance values. -/
lemma sumAmt_constructs (bal : List (String × ℤ)) :
    sumAmt (credConstruct bal) - sumAmt (debtConstruct bal) =
      (bal.map Prod.snd).sum := by
  induction bal with
  | nil => simp [credConstruct, debtConstruct, sumAmt]
  | cons kv bal ih =>
    rw [credConstruct_cons, debtConstruct_cons, List.map_cons, List.sum_cons]
    rcases lt_trichotomy kv.2 0 with hg | hg | hg
    · rw [if_neg (by omega), if_pos hg]
      rw [sumAmt_cons] at *
      show sumAmt (credConstruct bal) - (-kv.2 + sumAmt (debtConstruct bal)) = kv.2 + (bal.map Prod.snd).sum
      omega
    · rw [if_neg (by omega), if_neg (by omega), hg]
      omega
    · rw [if_pos hg, if_neg (by omega)]
      rw [sumAmt_cons]
      show kv.2 + sumAmt (credConstruct bal) - sumAmt (debtConstruct bal) = kv.2 + (bal.map Prod.snd).sum
      omega

lemma credConstruct_nil_of_zero (bal : List (String × ℤ))
    (h : ∀ kv ∈ bal, kv.2 = 0) : credConstruct bal = [] := by
  unfold credConstruct
  rw [List.filter_eq_nil_iff.mpr ?_]
  · rfl
  · intro kv hkv
    have := h kv hkv
    simp [this]

lemma debtConstruct_nil_of_zero (bal : List (String × ℤ))
    (h : ∀ kv ∈ bal, kv.2 = 0) : debtConstruct bal = [] := by
  unfold debtConstruct
  rw [List.filter_eq_nil_iff.mpr ?_]
  · rfl
  · intro kv hkv
    have := h kv hkv
    simp [this]

/-! ## Settlement minimizer: top-level properties -/

lemma pos_debtorsOf (bal : List (String × ℤ)) :
    ∀ e ∈ debtorsOf bal, 0 < e.amount := by
  intro e he
  rw [debtorsOf_eq, List.mem_insertionSort] at he
  exact pos_debtConstruct bal e he

lemma pos_creditorsOf (bal : List (String × ℤ)) :
    ∀ e ∈ creditorsOf bal, 0 < e.amount := by
  intro e he
  rw [creditorsOf_eq, List.mem_insertionSort] at he
  exact pos_credConstruct bal e he

lemma settleFrom_def (bal : List (String × ℤ)) :
    settleFrom bal = List.insertionSort txDesc
      (settleLoop ((debtorsOf bal).length + (creditorsOf bal).length)
        (debtorsOf bal) (creditorsOf bal)) := rfl

lemma settleFrom_length (bal : List (String × ℤ)) :
    (settleFrom bal).length ≤
      (debtorsOf bal).length + (creditorsOf bal).length - 1 := by
  rw [settleFrom_def, List.Perm.length_eq (List.perm_insertionSort _ _)]
  exact settleLoop_length _ _ _ (pos_debtorsOf bal) (pos_creditorsOf bal)

lemma settleFrom_pos (bal : List (String × ℤ)) :
    ∀ t ∈ settleFrom bal, 0 < t.amount := by
  intro t ht
  rw [settleFrom_def, List.mem_insertionSort] at ht
  exact settleLoop_pos _ _ _ t ht

lemma settleFrom_sorted (bal : List (String × ℤ)) :
    List.Sorted txDesc (settleFrom bal) := by
  rw [settleFrom_def]
  exact List.sorted_insertionSort txDesc _

lemma settleFrom_all_zero (bal : List (String × ℤ))
    (h : ∀ kv ∈ bal, kv.2 = 0) : settleFrom bal = [] := by
  have hd : debtorsOf bal = [] := by
    rw [debtorsOf_eq, debtConstruct_nil_of_zero bal h]
    rfl
  have hc : creditorsOf bal = [] := by
    rw [creditorsOf_eq, credConstruct_nil_of_zero bal h]
    rfl
  rw [settleFrom_def, hd, hc]
  rfl

lemma settleFrom_ids (bal : List (String × ℤ)) :
    ∀ t ∈ settleFrom bal,
      t.fromId ∈ bal.map Prod.fst ∧ t.toId ∈ bal.map Prod.fst := by
  intro t ht
  rw [settleFrom_def, List.mem_insertionSort] at ht
  obtain ⟨hf, htid⟩ := settleLoop_ids _ _ _ t ht
  constructor
  · rw [List.mem_map] at hf
    obtain ⟨e, he, hei⟩ := hf
    rw [debtorsOf_eq, List.mem_insertionSort] at he
    rw [← hei]
    exact ids_debtConstruct bal e he
  · rw [List.mem_map] at htid
    obtain ⟨e, he, hei⟩ := htid
    rw [creditorsOf_eq, List.mem_insertionSort] at he
    rw [← hei]
    exact ids_credConstruct bal e he

/-- Settlement closure on a duplicate-free Balance mapping whose values
sum to zero: received minus paid equals the balance. -/
lemma settleFrom_closure (ks : List String) (g : String → ℤ)
    (hnd : ks.Nodup)
    (hsum : (((ks.map fun k => (k, g k)).map Prod.snd).sum : ℤ) = 0)
    (pid : String) :
    recvOf (settleFrom (ks.map fun k => (k, g k))) pid -
      payOf (settleFrom (ks.map fun k => (k, g k))) pid =
      if pid ∈ ks then g pid else 0 := by
  set bal := ks.map fun k => (k, g k) with hbal
  have hperm : (settleFrom bal).Perm
      (settleLoop ((debtorsOf bal).length + (creditorsOf bal).length)
        (debtorsOf bal) (creditorsOf bal)) := by
    rw [settleFrom_def]
    exact List.perm_insertionSort _ _
  rw [recvOf_perm _ _ hperm, payOf_perm _ _ hperm]
  have hdp : (debtorsOf bal).Perm (debtConstruct bal) := by
    rw [debtorsOf_eq]
    exact List.perm_insertionSort _ _
  have hcp : (creditorsOf bal).Perm (credConstruct bal) := by
    rw [creditorsOf_eq]
    exact List.perm_insertionSort _ _
  have hsums : sumAmt (debtorsOf bal) = sumAmt (creditorsOf bal) := by
    rw [sumAmt_perm _ _ hdp, sumAmt_perm _ _ hcp]
    have := sumAmt_constructs bal
    omega
  rw [settleLoop_closure _ _ _ (pos_debtorsOf bal) (pos_creditorsOf bal) hsums
    (le_refl _) pid]
  rw [idSum_perm _ _ hcp, idSum_perm _ _ hdp]
  exact idSum_constructs ks g pid hnd

/-- Settlement closure for the engine pipeline: when the Balance values
sum to 0, received minus paid over the final settlement equals the
Balance, for every id. -/
lemma net_eq_balance (players : List Player) (rounds : List GameRound)
    (hsum : ((totals players rounds).map Prod.snd).sum = 0) (pid : String) :
    recvOf (finalSettlement players rounds) pid -
      payOf (finalSettlement players rounds) pid =
      balanceD players rounds pid := by
  unfold finalSettlement
  rw [show totals players rounds =
    (firstKeys (players.map Player.id)).map fun k => (k, totalOf players rounds k)
    from totals_eq players rounds]
  rw [settleFrom_closure (firstKeys (players.map Player.id))
    (totalOf players rounds) (nodup_firstKeys _)
    (by rw [← totals_eq]; exact hsum) pid]
  by_cases h : pid ∈ firstKeys (players.map Player.id)
  · rw [if_pos h, balanceD_eq_totalOf _ _ _ ((mem_firstKeys _ _).mp h)]
  · rw [if_neg h, balanceD_not_mem _ _ _ (fun hm => h ((mem_firstKeys _ _).mpr hm))]

/-! ## Balance conservation -/

lemma balance_conservation (players : List Player) (rounds : List GameRound)
    (hnd : (players.map Player.id).Nodup)
    (hr : ∀ r ∈ rounds, r.bankerId = "" ∨
      (r.bankerId ∈ players.map Player.id ∧ (keysOf r.values).Nodup ∧
        ∀ p ∈ players, p.id ≠ r.bankerId →
          lookupD r.values p.id ≠ JsNum.nonfinite)) :
    (players.map fun p => balanceD players rounds p.id).sum = 0 := by
  have h1 : ∀ p ∈ players, balanceD players rounds p.id = totalOf players rounds p.id :=
    fun p hp => balanceD_eq_totalOf _ _ _ (List.mem_map_of_mem _ hp)
  rw [List.map_congr_left h1]
  unfold totalOf
  rw [sum_map_swap]
  apply List.sum_eq_zero
  intro x hx
  rw [List.mem_map] at hx
  obtain ⟨r, hrm, hrx⟩ := hx
  rw [← hrx]
  by_cases hbe : r.bankerId = ""
  · apply List.sum_eq_zero
    intro y hy
    rw [List.mem_map] at hy
    obtain ⟨p, hp, hpy⟩ := hy
    rw [← hpy]
    unfold roundContrib
    rw [if_pos hbe]
  · rcases hr r hrm with h | ⟨hbm, hvnd, hfin⟩
    · exact absurd h hbe
    · have h2 : ∀ p ∈ players,
          roundContrib players r p.id = normValue players r p.id :=
        fun p _ => roundContrib_eq_normValue players r hbe hvnd p.id
      rw [List.map_congr_left h2]
      exact normValue_sum_zero players r hnd hbm hfin

/-- The sum of the Balance-map values equals the roster sum of balances
when player ids are duplicate-free. -/
lemma totals_snd_sum_eq (players : List Player) (rounds : List GameRound)
    (hnd : (players.map Player.id).Nodup) :
    ((totals players rounds).map Prod.snd).sum =
      (players.map fun p => balanceD players rounds p.id).sum := by
  have hfk : firstKeys (players.map Player.id) = players.map Player.id := by
    have haux : ∀ (l : List String) (acc : List String), l.Nodup →
        (∀ x ∈ l, x ∉ acc) →
        l.foldl (fun acc k => if k ∈ acc then acc else acc ++ [k]) acc = acc ++ l := by
      intro l
      induction l with
      | nil => intro acc _ _; simp
      | cons x xs ih =>
        intro acc hnd2 hdisj
        rw [List.nodup_cons] at hnd2
        rw [List.foldl_cons, if_neg (hdisj x (List.mem_cons_self _ _))]
        rw [ih (acc ++ [x]) hnd2.2 ?_]
        · simp
        · intro y hy hmem
          rw [List.mem_append, List.mem_singleton] at hmem
          rcases hmem with h1 | h1
          · exact hdisj y (List.mem_cons_of_mem _ hy) h1
          · exact hnd2.1 (h1 ▸ hy)
    unfold firstKeys
    rw [haux (players.map Player.id) [] hnd (by simp)]
    simp
  rw [totals_eq, List.map_map, hfk, List.map_map]
  have : ∀ p ∈ players, balanceD players rounds p.id = totalOf players rounds p.id :=
    fun p hp => balanceD_eq_totalOf _ _ _ (List.mem_map_of_mem _ hp)
  rw [List.map_congr_left this]
  rfl

/-! ## The Debt Expander -/

lemma foldl_opt_append {α β : Type} (f : α → Option β) (step : List β → α → List β)
    (hstep : ∀ acc a, step acc a = acc ++ (f a).toList) :
    ∀ (l : List α) (acc : List β), l.foldl step acc = acc ++ l.filterMap f := by
  intro l
  induction l with
  | nil =>
    intro acc
    simp
  | cons x xs ih =>
    intro acc
    rw [List.foldl_cons, hstep, ih, List.filterMap_cons]
    cases hf : f x with
    | none => simp [Option.toList]
    | some b => simp [Option.toList]

lemma roundDebts_eq_filterMap (players : List Player) (idx : Nat) (r : GameRound) :
    roundDebts players idx r = players.filterMap (debtOf idx r.bankerId r.values) := by
  unfold roundDebts
  rw [foldl_opt_append (debtOf idx r.bankerId r.values) _ ?_ players []]
  · rw [List.nil_append]
  · intro acc p
    unfold debtOf
    by_cases hpb : p.id = r.bankerId
    · simp [hpb]
    · simp only [hpb, if_false]
      cases hlk : lookupD r.values p.id with
      | nonfinite => simp [Option.toList]
      | fin v =>
        by_cases hv0 : v = 0
        · simp [hv0, Option.toList]
        · by_cases hvp : 0 < v
          · simp [hv0, hvp, Option.toList]
          · simp [hv0, hvp, Option.toList]

lemma debtOf_eq_spec (idx : Nat) (b : String) (vals : RoundValues) (p : Player) :
    debtOf idx b vals p = debtItemSpec idx b vals p := by
  unfold debtOf debtItemSpec
  by_cases hpb : p.id = b
  · simp [hpb]
  · simp only [hpb, if_false]
    cases hlk : lookupD vals p.id with
    | nonfinite => rfl
    | fin v =>
      by_cases hv0 : v = 0
      · simp [hv0]
      · by_cases hvp : 0 < v
        · simp [hv0, hvp, abs_of_pos hvp]
        · simp [hv0, hvp]

lemma debtsAux_eq_spec (players : List Player) (rounds : List GameRound) :
    ∀ idx : Nat, debtsAux players idx rounds = debtsSpecAux players idx rounds := by
  induction rounds with
  | nil => intro idx; rfl
  | cons r rs ih =>
    intro idx
    unfold debtsAux debtsSpecAux
    rw [ih]
    by_cases hb : r.bankerId = ""
    · rw [if_pos hb, if_pos hb]
    · rw [if_neg hb, if_neg hb, roundDebts_eq_filterMap]
      rw [funext (debtOf_eq_spec idx r.bankerId r.values)]

lemma debtOf_succ (idx : Nat) (b : String) (vals : RoundValues) (p : Player) :
    debtOf (idx + 1) b vals p = (debtOf idx b vals p).map bumpIdx := by
  unfold debtOf
  by_cases hpb : p.id = b
  · simp [hpb]
  · simp only [hpb, if_false]
    cases lookupD vals p.id with
    | nonfinite => rfl
    | fin v =>
      by_cases hv0 : v = 0
      · simp [hv0]
      · by_cases hvp : 0 < v
        · simp [hv0, hvp, bumpIdx]
        · simp [hv0, hvp, bumpIdx]

lemma roundDebts_succ (players : List Player) (idx : Nat) (r : GameRound) :
    roundDebts players (idx + 1) r = (roundDebts players idx r).map bumpIdx := by
  rw [roundDebts_eq_filterMap, roundDebts_eq_filterMap, List.map_filterMap]
  rw [funext (debtOf_succ idx r.bankerId r.values)]

lemma debtsAux_succ (players : List Player) (rounds : List GameRound) :
    ∀ idx : Nat,
      debtsAux players (idx + 1) rounds = (debtsAux players idx rounds).map bumpIdx := by
  induction rounds with
  | nil => intro idx; rfl
  | cons r rs ih =>
    intro idx
    unfold debtsAux
    rw [List.map_append, roundDebts_succ, ih (idx + 1)]
    by_cases hb : r.bankerId = ""
    · simp [hb]
    · simp [hb]

lemma debtsAux_append (players : List Player) (xs ys : List GameRound) :
    ∀ idx : Nat,
      debtsAux players idx (xs ++ ys) =
        debtsAux players idx xs ++ debtsAux players (idx + xs.length) ys := by
  induction xs with
  | nil => intro idx; simp [debtsAux]
  | cons x xs ih =>
    intro idx
    rw [List.cons_append]
    rw [show debtsAux players idx (x :: (xs ++ ys)) =
      (if x.bankerId = "" then [] else roundDebts players idx x) ++
        debtsAux players (idx + 1) (xs ++ ys) from rfl]
    rw [show debtsAux players idx (x :: xs) =
      (if x.bankerId = "" then [] else roundDebts players idx x) ++
        debtsAux players (idx + 1) xs from rfl]
    rw [ih (idx + 1), List.append_assoc]
    have harith : idx + 1 + xs.length = idx + (x :: xs).length := by
      simp [List.length_cons]
      omega
    rw [harith]

/-- Where every emitted DebtItem comes from: a round with a set banker and
a non-banker roster player; its direction fields name exactly that banker
and that player. -/
lemma mem_debtsAux (players : List Player) (rounds : List GameRound) :
    ∀ (idx : Nat) (d : DebtItem), d ∈ debtsAux players idx rounds →
      ∃ r ∈ rounds, r.bankerId ≠ "" ∧ d.bankerId = r.bankerId ∧
        ∃ p ∈ players, p.id ≠ r.bankerId ∧
          ((d.fromId = r.bankerId ∧ d.toId = p.id) ∨
           (d.fromId = p.id ∧ d.toId = r.bankerId)) := by
  induction rounds with
  | nil =>
    intro idx d hd
    simp [debtsAux] at hd
  | cons r rs ih =>
    intro idx d hd
    unfold debtsAux at hd
    rw [List.mem_append] at hd
    rcases hd with hd | hd
    · by_cases hb : r.bankerId = ""
      · rw [if_pos hb] at hd
        simp at hd
      · rw [if_neg hb, roundDebts_eq_filterMap, List.mem_filterMap] at hd
        obtain ⟨p, hp, hdp⟩ := hd
        refine ⟨r, List.mem_cons_self _ _, hb, ?_⟩
        unfold debtOf at hdp
        by_cases hpb : p.id = r.bankerId
        · rw [if_pos hpb] at hdp
          exact absurd hdp (by simp)
        · rw [if_neg hpb] at hdp
          cases hlk : lookupD r.values p.id with
          | nonfinite =>
            simp only [hlk] at hdp
            exact absurd hdp (by simp)
          | fin v =>
            simp only [hlk] at hdp
            by_cases hv0 : v = 0
            · rw [if_pos hv0] at hdp
              exact absurd hdp (by simp)
            · rw [if_neg hv0] at hdp
              by_cases hvp : 0 < v
              · rw [if_pos hvp, Option.some_inj] at hdp
                rw [← hdp]
                exact ⟨rfl, p, hp, hpb, Or.inl ⟨rfl, rfl⟩⟩
              · rw [if_neg hvp, Option.some_inj] at hdp
                rw [← hdp]
                exact ⟨rfl, p, hp, hpb, Or.inr ⟨rfl, rfl⟩⟩
    · obtain ⟨r2, hr2, rest⟩ := ih (idx + 1) d hd
      exact ⟨r2, List.mem_cons_of_mem _ hr2, rest⟩

/-! ## Roster removal -/

lemma lookup_filter_ne (vals : RoundValues) (pid k : String) (hk : k ≠ pid) :
    (vals.filter fun kv => kv.1 ≠ pid).lookup k = vals.lookup k := by
  induction vals with
  | nil => rfl
  | cons e es ih =>
    obtain ⟨a, w⟩ := e
    by_cases hap : a = pid
    · rw [List.filter_cons, if_neg (by simp [hap])]
      have hka : (k == a) = false := beq_eq_false_iff_ne.mpr (fun hh => hk (hh.trans hap))
      rw [List.lookup]
      rw [hka]
      exact ih
    · rw [List.filter_cons, if_pos (by simp [hap])]
      rw [List.lookup, List.lookup]
      cases hka : k == a
      · exact ih
      · rfl

lemma lookupD_filter_ne (vals : RoundValues) (pid k : String) (hk : k ≠ pid) :
    lookupD (vals.filter fun kv => kv.1 ≠ pid) k = lookupD vals k := by
  unfold lookupD
  rw [lookup_filter_ne vals pid k hk]

lemma keysOf_filter (vals : RoundValues) (pid : String) :
    keysOf (vals.filter fun kv => kv.1 ≠ pid) =
      (keysOf vals).filter fun k => k ≠ pid := by
  induction vals with
  | nil => rfl
  | cons e es ih =>
    unfold keysOf at ih ⊢
    rw [List.filter_cons, List.map_cons, List.filter_cons]
    by_cases hap : e.1 = pid
    · rw [if_neg (by simp [hap]), if_neg (by simp [hap])]
      exact ih
    · rw [if_pos (by simp [hap]), if_pos (by simp [hap]), List.map_cons, ih]

lemma add_fin_zero (a : JsNum) : a + JsNum.fin 0 = a := by
  cases a with
  | fin c =>
    show JsNum.fin (c + 0) = JsNum.fin c
    rw [add_zero]
  | nonfinite => rfl

lemma foldl_add_map_filter {α : Type} (l : List α) (P : α → Bool) (f : α → JsNum)
    (h : ∀ x ∈ l, P x = false → f x = JsNum.fin 0) :
    ∀ a : JsNum,
      ((l.filter P).map f).foldl (· + ·) a = (l.map f).foldl (· + ·) a := by
  induction l with
  | nil => intro a; rfl
  | cons x xs ih =>
    intro a
    rw [List.filter_cons]
    cases hP : P x
    · rw [if_neg (by simp), List.map_cons, List.foldl_cons]
      rw [h x (List.mem_cons_self _ _) hP, add_fin_zero]
      exact ih (fun y hy => h y (List.mem_cons_of_mem _ hy)) a
    · rw [if_pos rfl, List.map_cons, List.map_cons, List.foldl_cons, List.foldl_cons]
      exact ih (fun y hy => h y (List.mem_cons_of_mem _ hy)) (a + f x)

lemma filter_swap {α : Type} (l : List α) (A B : α → Bool) :
    (l.filter A).filter B = (l.filter B).filter A := by
  rw [List.filter_filter, List.filter_filter]
  apply List.filter_congr
  intro x _
  rw [Bool.and_comm]

lemma sumParticipants_removePlayer (players : List Player) (r : GameRound)
    (pid : String) (_hbp : r.bankerId ≠ pid)
    (hz : lookupD r.values pid = JsNum.fin 0) :
    sumParticipants (players.filter fun p => p.id ≠ pid)
      ⟨r.id, r.bankerId, r.values.filter fun kv => kv.1 ≠ pid⟩ =
      sumParticipants players r := by
  unfold sumParticipants
  show (((players.filter fun p => p.id ≠ pid).filter fun p => p.id ≠ r.bankerId).map
      fun p => lookupD (r.values.filter fun kv => kv.1 ≠ pid) p.id).foldl (· + ·) (JsNum.fin 0) = _
  rw [filter_swap]
  have hmc : ∀ p ∈ (players.filter fun p => p.id ≠ r.bankerId).filter fun p => p.id ≠ pid,
      lookupD (r.values.filter fun kv => kv.1 ≠ pid) p.id = lookupD r.values p.id := by
    intro p hp
    rw [List.mem_filter] at hp
    exact lookupD_filter_ne r.values pid p.id (by simpa using hp.2)
  rw [List.map_congr_left hmc]
  apply foldl_add_map_filter
  intro p hp hP
  have hpp : p.id = pid := by simpa using hP
  rw [hpp]
  exact hz

lemma normValue_removePlayer (players : List Player) (r : GameRound)
    (pid k : String) (hbp : r.bankerId ≠ pid)
    (hz : lookupD r.values pid = JsNum.fin 0) (hk : k ≠ pid) :
    normValue (players.filter fun p => p.id ≠ pid)
      ⟨r.id, r.bankerId, r.values.filter fun kv => kv.1 ≠ pid⟩ k =
      normValue players r k := by
  unfold normValue
  show (if k = r.bankerId then _ else _) = _
  by_cases hkb : k = r.bankerId
  · rw [if_pos hkb, if_pos hkb,
      sumParticipants_removePlayer players r pid hbp hz]
  · rw [if_neg hkb, if_neg hkb]
    show (lookupD (r.values.filter fun kv => kv.1 ≠ pid) k).toFinite = _
    rw [lookupD_filter_ne r.values pid k hk]

lemma roundContrib_removePlayer (players : List Player) (r : GameRound)
    (pid k : String) (hnd : (keysOf r.values).Nodup) (hbp : r.bankerId ≠ pid)
    (hz : lookupD r.values pid = JsNum.fin 0) (hk : k ≠ pid) :
    roundContrib (players.filter fun p => p.id ≠ pid)
      ⟨r.id, r.bankerId, r.values.filter fun kv => kv.1 ≠ pid⟩ k =
      roundContrib players r k := by
  by_cases hbe : r.bankerId = ""
  · unfold roundContrib
    rw [if_pos hbe, if_pos hbe]
  · have hnd2 : (keysOf (r.values.filter fun kv => kv.1 ≠ pid)).Nodup := by
      rw [keysOf_filter]
      exact List.Nodup.filter _ hnd
    rw [roundContrib_eq_normValue (players.filter fun p => p.id ≠ pid)
        ⟨r.id, r.bankerId, r.values.filter fun kv => kv.1 ≠ pid⟩ hbe hnd2 k,
      roundContrib_eq_normValue players r hbe hnd k]
    exact normValue_removePlayer players r pid k hbp hz hk

lemma removePlayer_round_eq (r : GameRound) (pid : String) (hbp : r.bankerId ≠ pid) :
    (⟨r.id, if r.bankerId = pid then "" else r.bankerId,
      r.values.filter fun kv => kv.1 ≠ pid⟩ : GameRound) =
      ⟨r.id, r.bankerId, r.values.filter fun kv => kv.1 ≠ pid⟩ := by
  rw [if_neg hbp]

lemma totalOf_removePlayer (players : List Player) (rounds : List GameRound)
    (pid k : String)
    (hWF : ∀ r ∈ rounds, (keysOf r.values).Nodup)
    (h : ∀ r ∈ rounds, r.bankerId ≠ pid ∧ lookupD r.values pid = JsNum.fin 0)
    (hk : k ≠ pid) :
    totalOf (removePlayer pid players rounds).1 (removePlayer pid players rounds).2 k =
      totalOf players rounds k := by
  unfold totalOf removePlayer
  rw [List.map_map]
  apply congrArg
  apply List.map_congr_left
  intro r hr
  show roundContrib (players.filter fun p => p.id ≠ pid)
    ⟨r.id, if r.bankerId = pid then "" else r.bankerId,
      r.values.filter fun kv => kv.1 ≠ pid⟩ k = roundContrib players r k
  rw [removePlayer_round_eq r pid (h r hr).1]
  exact roundContrib_removePlayer players r pid k (hWF r hr) (h r hr).1 (h r hr).2 hk

lemma totalOf_pid_zero (players : List Player) (rounds : List GameRound)
    (pid : String)
    (hWF : ∀ r ∈ rounds, (keysOf r.values).Nodup)
    (h : ∀ r ∈ rounds, r.bankerId ≠ pid ∧ lookupD r.values pid = JsNum.fin 0) :
    totalOf players rounds pid = 0 := by
  unfold totalOf
  apply List.sum_eq_zero
  intro x hx
  rw [List.mem_map] at hx
  obtain ⟨r, hr, hrx⟩ := hx
  rw [← hrx]
  by_cases hbe : r.bankerId = ""
  · unfold roundContrib
    rw [if_pos hbe]
  · rw [roundContrib_eq_normValue players r hbe (hWF r hr) pid]
    unfold normValue
    rw [if_neg (fun hh => (h r hr).1 hh.symm), (h r hr).2]
    rfl

lemma filterMap_filter_congr {α β : Type} (l : List α) (P : α → Bool)
    (g g2 : α → Option β)
    (h1 : ∀ x ∈ l, P x = true → g2 x = g x)
    (h2 : ∀ x ∈ l, P x = false → g x = none) :
    (l.filter P).filterMap g2 = l.filterMap g := by
  induction l with
  | nil => rfl
  | cons x xs ih =>
    have ihx := ih (fun y hy => h1 y (List.mem_cons_of_mem _ hy))
      (fun y hy => h2 y (List.mem_cons_of_mem _ hy))
    rw [List.filter_cons]
    cases hP : P x
    · rw [if_neg (by simp), List.filterMap_cons,
        h2 x (List.mem_cons_self _ _) hP, ihx]
    · rw [if_pos rfl, List.filterMap_cons, List.filterMap_cons,
        h1 x (List.mem_cons_self _ _) hP]
      cases hg : g x
      · rw [ihx]
      · rw [ihx]

lemma debtOf_filter_vals (idx : Nat) (b : String) (vals : RoundValues)
    (pid : String) (p : Player) (hp : p.id ≠ pid) :
    debtOf idx b (vals.filter fun kv => kv.1 ≠ pid) p = debtOf idx b vals p := by
  unfold debtOf
  rw [lookupD_filter_ne vals pid p.id hp]

lemma debtOf_none_of_zero (idx : Nat) (b : String) (vals : RoundValues)
    (p : Player) (hpb : ¬p.id = b) (hz : lookupD vals p.id = JsNum.fin 0) :
    debtOf idx b vals p = none := by
  unfold debtOf
  rw [if_neg hpb]
  simp [hz]

lemma debtsAux_removePlayer (players : List Player) (rounds : List GameRound)
    (pid : String)
    (h : ∀ r ∈ rounds, r.bankerId ≠ pid ∧ lookupD r.values pid = JsNum.fin 0) :
    ∀ idx : Nat,
      debtsAux (players.filter fun p => p.id ≠ pid) idx
        (rounds.map fun r =>
          { r with
            values := r.values.filter fun kv => kv.1 ≠ pid
            bankerId := if r.bankerId = pid then "" else r.bankerId }) =
        debtsAux players idx rounds := by
  induction rounds with
  | nil => intro idx; rfl
  | cons r rs ih =>
    intro idx
    rw [List.map_cons]
    unfold debtsAux
    rw [ih (fun r2 hr2 => h r2 (List.mem_cons_of_mem _ hr2)) (idx + 1)]
    have hr := h r (List.mem_cons_self _ _)
    rw [show ({ r with
        values := r.values.filter fun kv => kv.1 ≠ pid
        bankerId := if r.bankerId = pid then "" else r.bankerId } : GameRound) =
      ⟨r.id, r.bankerId, r.values.filter fun kv => kv.1 ≠ pid⟩ from by rw [if_neg hr.1]]
    by_cases hbe : r.bankerId = ""
    · rw [if_pos hbe, if_pos hbe]
    · rw [if_neg hbe, if_neg hbe]
      show roundDebts (players.filter fun p => p.id ≠ pid) idx
        ⟨r.id, r.bankerId, r.values.filter fun kv => kv.1 ≠ pid⟩ ++ _ =
        roundDebts players idx r ++ _
      rw [roundDebts_eq_filterMap, roundDebts_eq_filterMap]
      rw [filterMap_filter_congr players _ (debtOf idx r.bankerId r.values) _ ?_ ?_]
      · intro p _ hP
        exact debtOf_filter_vals idx r.bankerId r.values pid p (by simpa using hP)
      · intro p _ hP
        have hpp : p.id = pid := by simpa using hP
        apply debtOf_none_of_zero
        · rw [hpp]
          exact fun hh => hr.1 hh.symm
        · rw [hpp]
          exact hr.2

lemma map_id_filter (players : List Player) (pid : String) :
    (players.filter fun p => p.id ≠ pid).map Player.id =
      (players.map Player.id).filter fun k => k ≠ pid := by
  induction players with
  | nil => rfl
  | cons p ps ih =>
    rw [List.filter_cons, List.map_cons, List.filter_cons]
    by_cases hp : p.id = pid
    · rw [if_neg (by simp [hp]), if_neg (by simp [hp]), ih]
    · rw [if_pos (by simp [hp]), if_pos (by simp [hp]), List.map_cons, ih]

lemma firstKeys_filter (l : List String) (Q : String → Bool) :
    firstKeys (l.filter Q) = (firstKeys l).filter Q := by
  suffices aux : ∀ (l acc : List String),
      (l.filter Q).foldl (fun acc k => if k ∈ acc then acc else acc ++ [k]) (acc.filter Q) =
        (l.foldl (fun acc k => if k ∈ acc then acc else acc ++ [k]) acc).filter Q by
    have h0 := aux l []
    simpa [firstKeys] using h0
  intro l
  induction l with
  | nil => intro acc; rfl
  | cons x xs ih =>
    intro acc
    rw [List.filter_cons, List.foldl_cons]
    cases hq : Q x
    · rw [if_neg (by simp)]
      have hacc : (if x ∈ acc then acc else acc ++ [x]).filter Q = acc.filter Q := by
        by_cases hx : x ∈ acc
        · rw [if_pos hx]
        · rw [if_neg hx, List.filter_append]
          have : [x].filter Q = [] := by simp [hq]
          rw [this, List.append_nil]
      rw [← hacc, ih (if x ∈ acc then acc else acc ++ [x])]
    · rw [if_pos rfl, List.foldl_cons]
      have hacc : (if x ∈ List.filter Q acc then List.filter Q acc
            else List.filter Q acc ++ [x]) =
          (if x ∈ acc then acc else acc ++ [x]).filter Q := by
        by_cases hx : x ∈ acc
        · rw [if_pos hx, if_pos (List.mem_filter.mpr ⟨hx, hq⟩)]
        · rw [if_neg hx, if_neg (fun hm => hx (List.mem_filter.mp hm).1),
            List.filter_append]
          have : [x].filter Q = [x] := by simp [hq]
          rw [this]
      rw [hacc, ih (if x ∈ acc then acc else acc ++ [x])]

lemma debtConstruct_filter_zero (ks : List String) (pid : String)
    (g g2 : String → ℤ) (hagree : ∀ k, k ≠ pid → g2 k = g k)
    (hzero : g pid = 0) :
    debtConstruct ((ks.filter fun k => k ≠ pid).map fun k => (k, g2 k)) =
      debtConstruct (ks.map fun k => (k, g k)) := by
  induction ks with
  | nil => rfl
  | cons k ks ih =>
    rw [List.filter_cons, List.map_cons, debtConstruct_cons]
    by_cases hkp : k = pid
    · rw [if_neg (by simp [hkp])]
      rw [if_neg (show ¬(k, g k).2 < 0 by
        show ¬g k < 0
        rw [hkp, hzero]
        omega)]
      exact ih
    · rw [if_pos (by simp [hkp]), List.map_cons, debtConstruct_cons, hagree k hkp, ih]

lemma credConstruct_filter_zero (ks : List String) (pid : String)
    (g g2 : String → ℤ) (hagree : ∀ k, k ≠ pid → g2 k = g k)
    (hzero : g pid = 0) :
    credConstruct ((ks.filter fun k => k ≠ pid).map fun k => (k, g2 k)) =
      credConstruct (ks.map fun k => (k, g k)) := by
  induction ks with
  | nil => rfl
  | cons k ks ih =>
    rw [List.filter_cons, List.map_cons, credConstruct_cons]
    by_cases hkp : k = pid
    · rw [if_neg (by simp [hkp])]
      rw [if_neg (show ¬0 < (k, g k).2 by
        show ¬0 < g k
        rw [hkp, hzero]
        omega)]
      exact ih
    · rw [if_pos (by simp [hkp]), List.map_cons, credConstruct_cons, hagree k hkp, ih]

lemma settleFrom_congr (bal1 bal2 : List (String × ℤ))
    (hd : debtConstruct bal1 = debtConstruct bal2)
    (hc : credConstruct bal1 = credConstruct bal2) :
    settleFrom bal1 = settleFrom bal2 := by
  rw [settleFrom_def, settleFrom_def, debtorsOf_eq, debtorsOf_eq,
    creditorsOf_eq, creditorsOf_eq, hd, hc]

lemma finalSettlement_removePlayer (players : List Player)
    (rounds : List GameRound) (pid : String)
    (hWF : ∀ r ∈ rounds, (keysOf r.values).Nodup)
    (h : ∀ r ∈ rounds, r.bankerId ≠ pid ∧ lookupD r.values pid = JsNum.fin 0) :
    finalSettlement (removePlayer pid players rounds).1
      (removePlayer pid players rounds).2 =
      finalSettlement players rounds := by
  unfold finalSettlement
  apply settleFrom_congr
  · rw [totals_eq, totals_eq]
    rw [show (removePlayer pid players rounds).1.map Player.id =
      (players.map Player.id).filter (fun k => k ≠ pid) from map_id_filter players pid]
    rw [firstKeys_filter]
    exact debtConstruct_filter_zero (firstKeys (players.map Player.id)) pid
      (totalOf players rounds)
      (totalOf (removePlayer pid players rounds).1 (removePlayer pid players rounds).2)
      (fun k hk => totalOf_removePlayer players rounds pid k hWF h hk)
      (totalOf_pid_zero players rounds pid hWF h)
  · rw [totals_eq, totals_eq]
    rw [show (removePlayer pid players rounds).1.map Player.id =
      (players.map Player.id).filter (fun k => k ≠ pid) from map_id_filter players pid]
    rw [firstKeys_filter]
    exact credConstruct_filter_zero (firstKeys (players.map Player.id)) pid
      (totalOf players rounds)
      (totalOf (removePlayer pid players rounds).1 (removePlayer pid players rounds).2)
      (fun k hk => totalOf_removePlayer players rounds pid k hWF h hk)
      (totalOf_pid_zero players rounds pid hWF h)

/-! ## Remaining helper lemmas: ghost banker, non-finite replacement,
bankerless rounds -/

lemma mem_of_lookup_some (vals : RoundValues) (pid : String) (v : JsNum)
    (h : vals.lookup pid = some v) : pid ∈ keysOf vals := by
  by_contra hm
  rw [lookup_none_of_not_mem vals pid hm] at h
  exact Option.noConfusion h

lemma roundContrib_replace (players : List Player) (r : GameRound)
    (k q : String) (hnd : (keysOf r.values).Nodup)
    (hk : lookupD r.values k = JsNum.nonfinite) (hq : q ≠ r.bankerId) :
    roundContrib players
      ⟨r.id, r.bankerId,
        r.values.map fun kv => if kv.1 = k then (kv.1, JsNum.fin 0) else kv⟩ q =
      roundContrib players r q := by
  by_cases hbe : r.bankerId = ""
  · unfold roundContrib
    rw [if_pos hbe, if_pos hbe]
  · have hnd2 : (keysOf (r.values.map fun kv =>
        if kv.1 = k then (kv.1, JsNum.fin 0) else kv)).Nodup := by
      rw [keysOf_override]
      exact hnd
    rw [roundContrib_eq_normValue players
        ⟨r.id, r.bankerId,
          r.values.map fun kv => if kv.1 = k then (kv.1, JsNum.fin 0) else kv⟩
        hbe hnd2 q,
      roundContrib_eq_normValue players r hbe hnd q]
    unfold normValue
    rw [if_neg hq, if_neg hq]
    show (lookupD (r.values.map fun kv =>
      if kv.1 = k then (kv.1, JsNum.fin 0) else kv) q).toFinite = _
    by_cases hqk : q = k
    · have hkm : k ∈ keysOf r.values := by
        unfold lookupD at hk
        cases hlk : r.values.lookup k with
        | none =>
          rw [hlk] at hk
          exact absurd hk (by simp)
        | some v => exact mem_of_lookup_some r.values k v hlk
      unfold lookupD
      rw [hqk, lookup_override_self r.values k (JsNum.fin 0) hkm]
      unfold lookupD at hk
      rw [← hqk] at hkm ⊢
      rw [hqk, hk]
      rfl
    · unfold lookupD
      rw [lookup_override_ne r.values k (JsNum.fin 0) q hqk]

lemma balanceD_replace_nonfinite (players : List Player)
    (pre post : List GameRound) (r : GameRound) (k q : String)
    (hnd : (keysOf r.values).Nodup)
    (hk : lookupD r.values k = JsNum.nonfinite) (hq : q ≠ r.bankerId) :
    balanceD players (pre ++
        (⟨r.id, r.bankerId,
          r.values.map fun kv => if kv.1 = k then (kv.1, JsNum.fin 0) else kv⟩ :
          GameRound) :: post) q =
      balanceD players (pre ++ r :: post) q := by
  by_cases hmem : q ∈ players.map Player.id
  · rw [balanceD_eq_totalOf _ _ _ hmem, balanceD_eq_totalOf _ _ _ hmem]
    unfold totalOf
    rw [List.map_append, List.map_append, List.map_cons, List.map_cons,
      List.sum_append, List.sum_append, List.sum_cons, List.sum_cons]
    rw [roundContrib_replace players r k q hnd hk hq]
  · rw [balanceD_not_mem _ _ _ hmem, balanceD_not_mem _ _ _ hmem]

lemma balanceD_ghost_cons (players : List Player) (r : GameRound)
    (rounds : List GameRound) (p : Player) (hp : p ∈ players)
    (hb : r.bankerId ≠ "") (hbm : r.bankerId ∉ players.map Player.id)
    (hnd : (keysOf r.values).Nodup) :
    balanceD players (r :: rounds) p.id =
      (lookupD r.values p.id).toFinite + balanceD players rounds p.id := by
  have hmem : p.id ∈ players.map Player.id := List.mem_map_of_mem _ hp
  rw [balanceD_eq_totalOf _ _ _ hmem, balanceD_eq_totalOf _ _ _ hmem]
  unfold totalOf
  rw [List.map_cons, List.sum_cons]
  have h1 : roundContrib players r p.id = (lookupD r.values p.id).toFinite := by
    rw [roundContrib_eq_normValue players r hb hnd p.id]
    unfold normValue
    have hne : ¬p.id = r.bankerId := by
      intro hh
      apply hbm
      rw [← hh]
      exact hmem
    rw [if_neg hne]
  rw [h1]

lemma totals_skip_empty (players : List Player) (pre post : List GameRound)
    (r : GameRound) (hb : r.bankerId = "") :
    totals players (pre ++ r :: post) = totals players (pre ++ post) := by
  unfold totals
  rw [List.foldl_append, List.foldl_append, List.foldl_cons]
  rw [show applyRound players (List.foldl (applyRound players) (initAcc players) pre) r =
    List.foldl (applyRound players) (initAcc players) pre from by
      unfold applyRound
      rw [if_pos hb]]

/-! ## Concrete inputs used by witnesses and counterexamples -/

/-- Sanity: the embedding reproduces the design document's worked scenario
end to end. -/
example :
    totals exPlayers3 [exRoundS] = [("A", -30), ("B", 50), ("C", -20)] ∧
      finalSettlement exPlayers3 [exRoundS] =
        [⟨"A", "B", 30⟩, ⟨"C", "B", 20⟩] ∧
      settlementByPerson exPlayers3 [exRoundS] =
        [⟨"B", 0, 50, 50⟩, ⟨"A", 30, 0, -30⟩, ⟨"C", 20, 0, -20⟩] := by
  refine ⟨by decide, by decide, by decide⟩

/-! ## The claims -/

/-- C2 (amended): for every round whose banker is set and belongs to a
duplicate-free roster, and whose other roster players' recorded values are
all finite, the sum over all roster players of the round's normalized
coerced values is exactly 0.  (As stated — for every round with any
non-empty bankerId — the claim is false: see the counterexample.) -/
theorem claim_C2 (players : List Player) (r : GameRound)
    (hnd : (players.map Player.id).Nodup)
    (hb : r.bankerId ∈ players.map Player.id)
    (hfin : ∀ p ∈ players, p.id ≠ r.bankerId →
      lookupD r.values p.id ≠ JsNum.nonfinite) :
    (players.map fun p => normValue players r p.id).sum = 0 :=
  normValue_sum_zero players r hnd hb hfin

/-- C2 counterexample: banker A is set and on the roster, but B's
recorded value is non-finite; the coerced normalized values of the round
sum to 50, not 0. -/
theorem claim_C2_counterexample :
    exRoundN.bankerId ≠ "" ∧
      exRoundN.bankerId ∈ exPlayers3.map Player.id ∧
      (exPlayers3.map fun p => normValue exPlayers3 exRoundN p.id).sum ≠ 0 := by
  refine ⟨by decide, by decide, by decide⟩

/-- C2 witness: the worked scenario's round is zero-sum. -/
theorem claim_C2_witness :
    (exPlayers3.map fun p => normValue exPlayers3 exRoundS p.id).sum = 0 :=
  claim_C2 exPlayers3 exRoundS (by decide) (by decide) (by decide)

/-- C3 (amended): the final Balances over a duplicate-free roster sum
to 0 provided every round either has no banker, or has its banker on the
roster, duplicate-free value keys and finite recorded values for all
other roster players.  (As stated — for every roster and round list — the
claim is false: see the counterexample.) -/
theorem claim_C3 (players : List Player) (rounds : List GameRound)
    (hnd : (players.map Player.id).Nodup)
    (hr : ∀ r ∈ rounds, r.bankerId = "" ∨
      (r.bankerId ∈ players.map Player.id ∧ (keysOf r.values).Nodup ∧
        ∀ p ∈ players, p.id ≠ r.bankerId →
          lookupD r.values p.id ≠ JsNum.nonfinite)) :
    (players.map fun p => balanceD players rounds p.id).sum = 0 :=
  balance_conservation players rounds hnd hr

/-- C3 counterexample: one roster player and one round with a banker
id not on the roster; the Balance sum is 50, not 0. -/
theorem claim_C3_counterexample :
    (([exA].map fun p => balanceD [exA] [exGhostRound] p.id).sum ≠ 0) := by
  decide

/-- C3 witness: the worked scenario's balances sum to 0. -/
theorem claim_C3_witness :
    (exPlayers3.map fun p => balanceD exPlayers3 [exRoundS] p.id).sum = 0 :=
  claim_C3 exPlayers3 [exRoundS] (by decide) (by decide)

/-- C4: for every Balance mapping, the Settlement Minimizer emits at
most `debtors + creditors - 1` transactions (truncated ℕ subtraction),
every emitted transaction has a strictly positive amount, the output is
sorted in non-increasing order of amount, and an all-zero Balance mapping
yields the empty transaction list. -/
theorem claim_C4 (balances : List (String × ℤ)) :
    (settleFrom balances).length ≤
        (debtorsOf balances).length + (creditorsOf balances).length - 1 ∧
      (∀ t ∈ settleFrom balances, 0 < t.amount) ∧
      List.Sorted txDesc (settleFrom balances) ∧
      ((∀ kv ∈ balances, kv.2 = 0) → settleFrom balances = []) :=
  ⟨settleFrom_length balances, settleFrom_pos balances,
    settleFrom_sorted balances, settleFrom_all_zero balances⟩

/-- C4 witness: on the all-zero Balance mapping `[("A", 0)]` the
minimizer returns the empty list, within the length bound. -/
theorem claim_C4_witness :
    (settleFrom [("A", (0:ℤ))]).length ≤
        (debtorsOf [("A", (0:ℤ))]).length + (creditorsOf [("A", (0:ℤ))]).length - 1 ∧
      settleFrom [("A", (0:ℤ))] = [] :=
  ⟨(claim_C4 [("A", (0:ℤ))]).1, (claim_C4 [("A", (0:ℤ))]).2.2.2 (by decide)⟩

/-- C5: the Debt Expander equals its contract: per round in sequence
order with a set banker, per non-banker roster player in roster order with
a finite non-zero recorded value `v`, exactly one DebtItem with
`amount = |v|`, directed banker → player when `v > 0` and player → banker
when `v < 0`; zero, missing or non-finite values emit nothing. -/
theorem claim_C5 (players : List Player) (rounds : List GameRound) :
    debtsByRound players rounds = debtsSpec players rounds := by
  unfold debtsByRound debtsSpec
  exact debtsAux_eq_spec players rounds 0

/-- C7 (amended): a round whose bankerId is non-empty but matches no
roster player is NOT treated as bankerless: prepending such a round adds
each roster player's own coerced recorded value to that player's Balance
(the banker's offsetting entry is simply dropped).  The claim as stated —
that such a round contributes nothing — is false: see the counterexample. -/
theorem claim_C7 (players : List Player) (r : GameRound)
    (rounds : List GameRound) (p : Player) (hp : p ∈ players)
    (hb : r.bankerId ≠ "") (hbm : r.bankerId ∉ players.map Player.id)
    (hnd : (keysOf r.values).Nodup) :
    balanceD players (r :: rounds) p.id =
      (lookupD r.values p.id).toFinite + balanceD players rounds p.id :=
  balanceD_ghost_cons players r rounds p hp hb hbm hnd

/-- C7 counterexample: a round with the absent banker id "G" and a
recorded 50 for roster player A changes A's Balance from 0 to 50, so the
round does contribute. -/
theorem claim_C7_counterexample :
    exGhostRound.bankerId ≠ "" ∧
      exGhostRound.bankerId ∉ [exA].map Player.id ∧
      balanceD [exA] [exGhostRound] "A" ≠ balanceD [exA] [] "A" := by
  refine ⟨by decide, by decide, by decide⟩

/-- C7 witness: the ghost-banker round adds A's own coerced value 50. -/
theorem claim_C7_witness :
    exA ∈ [exA] ∧
      balanceD [exA] [exGhostRound] exA.id =
        (lookupD exGhostRound.values exA.id).toFinite + balanceD [exA] [] exA.id :=
  ⟨by decide, claim_C7 [exA] exGhostRound [] exA (by decide) (by decide)
    (by decide) (by decide)⟩

/-- C9: the Balance Aggregator is invariant under permuting the round
list: permuted round lists produce the identical Balance mapping. -/
theorem claim_C9 (players : List Player) (rounds1 rounds2 : List GameRound)
    (h : rounds1.Perm rounds2) :
    totals players rounds1 = totals players rounds2 := by
  rw [totals_eq, totals_eq]
  apply List.map_congr_left
  intro k _
  show (k, totalOf players rounds1 k) = (k, totalOf players rounds2 k)
  have : totalOf players rounds1 k = totalOf players rounds2 k :=
    List.Perm.sum_eq (List.Perm.map _ h)
  rw [this]

/-- C9 witness: swapping two concrete rounds leaves the Balance
mapping identical. -/
theorem claim_C9_witness :
    ([exRoundS, exRoundAB].Perm [exRoundAB, exRoundS]) ∧
      totals exPlayers3 [exRoundS, exRoundAB] =
        totals exPlayers3 [exRoundAB, exRoundS] :=
  ⟨List.Perm.swap exRoundAB exRoundS [],
    claim_C9 exPlayers3 [exRoundS, exRoundAB] [exRoundAB, exRoundS]
      (List.Perm.swap exRoundAB exRoundS [])⟩

/-- C1 (amended): for every roster and round list whose final Balances
sum to 0 (which holds whenever every round's banker is unset or on the
roster and all recorded values are finite), every Per-Person Summary entry
has `pay` and `receive` equal to its sums over the Settlement Transactions
as payer resp. payee, `net = receive - pay`, and `net` equal to that
player's final Balance exactly.  (As stated — for every roster and round
list — the net-equals-Balance part is false: see the counterexample.) -/
theorem claim_C1 (players : List Player) (rounds : List GameRound)
    (hsum : ((totals players rounds).map Prod.snd).sum = 0) :
    ∀ e ∈ settlementByPerson players rounds,
      e.pay = payOf (finalSettlement players rounds) e.personId ∧
      e.receive = recvOf (finalSettlement players rounds) e.personId ∧
      e.net = e.receive - e.pay ∧
      e.net = balanceD players rounds e.personId := by
  intro e he
  simp only [settlementByPerson, List.mem_insertionSort, List.mem_map] at he
  obtain ⟨p, hp, hpe⟩ := he
  rw [← hpe]
  refine ⟨rfl, rfl, rfl, ?_⟩
  show recvOf (finalSettlement players rounds) p.id -
      payOf (finalSettlement players rounds) p.id =
      balanceD players rounds p.id
  exact net_eq_balance players rounds hsum p.id

/-- C1 counterexample: a single roster player A and one round whose
recorded banker id is on no roster entry: A's Balance is 50, but the
settlement is empty, so A's summary entry has net 0 ≠ 50. -/
theorem claim_C1_counterexample :
    (⟨"A", 0, 0, 0⟩ : PersonSettlement) ∈ settlementByPerson [exA] [exGhostRound] ∧
      balanceD [exA] [exGhostRound] "A" = 50 ∧
      (⟨"A", 0, 0, 0⟩ : PersonSettlement).net ≠
        balanceD [exA] [exGhostRound] (⟨"A", 0, 0, 0⟩ : PersonSettlement).personId := by
  refine ⟨by decide, by decide, by decide⟩

/-- C1 witness: in the worked scenario the Balances sum to 0 and B's
summary entry satisfies the full claim. -/
theorem claim_C1_witness :
    ((totals exPlayers3 [exRoundS]).map Prod.snd).sum = 0 ∧
      ((⟨"B", 0, 50, 50⟩ : PersonSettlement) ∈
        settlementByPerson exPlayers3 [exRoundS]) ∧
      ((⟨"B", 0, 50, 50⟩ : PersonSettlement).pay =
          payOf (finalSettlement exPlayers3 [exRoundS]) "B" ∧
        (⟨"B", 0, 50, 50⟩ : PersonSettlement).receive =
          recvOf (finalSettlement exPlayers3 [exRoundS]) "B" ∧
        (⟨"B", 0, 50, 50⟩ : PersonSettlement).net =
          (⟨"B", 0, 50, 50⟩ : PersonSettlement).receive -
            (⟨"B", 0, 50, 50⟩ : PersonSettlement).pay ∧
        (⟨"B", 0, 50, 50⟩ : PersonSettlement).net =
          balanceD exPlayers3 [exRoundS] "B") :=
  ⟨by decide, by decide,
    claim_C1 exPlayers3 [exRoundS] (by decide) ⟨"B", 0, 50, 50⟩ (by decide)⟩

/-- C6 (amended): after removing a player, their id appears in no
Balance key, DebtItem field, Settlement Transaction field or Per-Person
Summary entry (unconditionally); and when the removed player was banker in
no round and their recorded value was 0-or-missing everywhere (the value
maps being well-formed records), every remaining player's Balance, the
DebtItem sequence and the Settlement output are unchanged.  (As stated —
remaining aggregates differing only through rounds where the removed
player was banker — the claim is false: see the counterexample, where the
removed player was never banker yet a remaining player's Balance changes.) -/
theorem claim_C6 (players : List Player) (rounds : List GameRound) (pid : String) :
    (pid ∉ (totals (removePlayer pid players rounds).1
        (removePlayer pid players rounds).2).map Prod.fst ∧
      (∀ d ∈ debtsByRound (removePlayer pid players rounds).1
          (removePlayer pid players rounds).2,
        d.bankerId ≠ pid ∧ d.fromId ≠ pid ∧ d.toId ≠ pid) ∧
      (∀ t ∈ finalSettlement (removePlayer pid players rounds).1
          (removePlayer pid players rounds).2,
        t.fromId ≠ pid ∧ t.toId ≠ pid) ∧
      (∀ s ∈ settlementByPerson (removePlayer pid players rounds).1
          (removePlayer pid players rounds).2,
        s.personId ≠ pid)) ∧
    ((∀ r ∈ rounds, (keysOf r.values).Nodup) →
      (∀ r ∈ rounds, r.bankerId ≠ pid ∧ lookupD r.values pid = JsNum.fin 0) →
      (∀ p ∈ (removePlayer pid players rounds).1,
          balanceD (removePlayer pid players rounds).1
            (removePlayer pid players rounds).2 p.id =
            balanceD players rounds p.id) ∧
        debtsByRound (removePlayer pid players rounds).1
            (removePlayer pid players rounds).2 =
          debtsByRound players rounds ∧
        finalSettlement (removePlayer pid players rounds).1
            (removePlayer pid players rounds).2 =
          finalSettlement players rounds) := by
  have hpid_not : pid ∉ (removePlayer pid players rounds).1.map Player.id := by
    intro hm
    rw [show (removePlayer pid players rounds).1.map Player.id =
      (players.map Player.id).filter (fun k => k ≠ pid) from
      map_id_filter players pid] at hm
    rw [List.mem_filter] at hm
    have hcon : pid ≠ pid := by simpa using hm.2
    exact hcon rfl
  have hbank2 : ∀ r2 ∈ (removePlayer pid players rounds).2,
      r2.bankerId ≠ "" → r2.bankerId ≠ pid := by
    intro r2 hr2 hne
    unfold removePlayer at hr2
    rw [List.mem_map] at hr2
    obtain ⟨r, _, hrr⟩ := hr2
    rw [← hrr] at hne ⊢
    by_cases hbp : r.bankerId = pid
    · exfalso
      apply hne
      show (if r.bankerId = pid then "" else r.bankerId) = ""
      rw [if_pos hbp]
    · show (if r.bankerId = pid then "" else r.bankerId) ≠ pid
      rw [if_neg hbp]
      exact hbp
  constructor
  · refine ⟨?_, ?_, ?_, ?_⟩
    · intro hm
      rw [keys_totals] at hm
      exact hpid_not ((mem_firstKeys _ _).mp hm)
    · intro d hd
      obtain ⟨r2, hr2, hb2, hdb, p, hp, _, hdir⟩ :=
        mem_debtsAux (removePlayer pid players rounds).1
          (removePlayer pid players rounds).2 0 d hd
      have hbne : r2.bankerId ≠ pid := hbank2 r2 hr2 hb2
      have hpne : p.id ≠ pid := by
        intro hh
        apply hpid_not
        have hmm := List.mem_map_of_mem Player.id hp
        rwa [hh] at hmm
      refine ⟨by rw [hdb]; exact hbne, ?_, ?_⟩
      · rcases hdir with ⟨h1, _⟩ | ⟨h1, _⟩
        · rw [h1]; exact hbne
        · rw [h1]; exact hpne
      · rcases hdir with ⟨_, h2⟩ | ⟨_, h2⟩
        · rw [h2]; exact hpne
        · rw [h2]; exact hbne
    · intro t ht
      obtain ⟨hf, htid⟩ := settleFrom_ids _ t ht
      rw [keys_totals] at hf htid
      constructor
      · intro hh
        rw [hh] at hf
        exact hpid_not ((mem_firstKeys _ _).mp hf)
      · intro hh
        rw [hh] at htid
        exact hpid_not ((mem_firstKeys _ _).mp htid)
    · intro s hs
      simp only [settlementByPerson, List.mem_insertionSort, List.mem_map] at hs
      obtain ⟨p, hp, hps⟩ := hs
      rw [← hps]
      show p.id ≠ pid
      intro hh
      apply hpid_not
      have hmm := List.mem_map_of_mem Player.id hp
      rwa [hh] at hmm
  · intro hWF h
    refine ⟨?_, ?_, finalSettlement_removePlayer players rounds pid hWF h⟩
    · intro p hp
      have hp2 : p.id ≠ pid := by
        intro hh
        apply hpid_not
        have hmm := List.mem_map_of_mem Player.id hp
        rwa [hh] at hmm
      have hmem2 : p.id ∈ (removePlayer pid players rounds).1.map Player.id :=
        List.mem_map_of_mem _ hp
      have hmem1 : p.id ∈ players.map Player.id := by
        unfold removePlayer at hp
        rw [List.mem_filter] at hp
        exact List.mem_map_of_mem _ hp.1
      rw [balanceD_eq_totalOf _ _ _ hmem2, balanceD_eq_totalOf _ _ _ hmem1]
      exact totalOf_removePlayer players rounds pid p.id hWF h hp2
    · unfold debtsByRound
      show debtsAux (removePlayer pid players rounds).1 0
        (removePlayer pid players rounds).2 = _
      unfold removePlayer
      exact debtsAux_removePlayer players rounds pid h 0

/-- C6 counterexample: removing B — who was banker in no round —
changes remaining player A's Balance from -50 to 0, because B's recorded
value fed the banker's implied value. -/
theorem claim_C6_counterexample :
    exRoundAB.bankerId ≠ "B" ∧
      balanceD (removePlayer "B" [exA, exB] [exRoundAB]).1
          (removePlayer "B" [exA, exB] [exRoundAB]).2 "A" ≠
        balanceD [exA, exB] [exRoundAB] "A" := by
  refine ⟨by decide, by decide⟩

/-- C6 witness: removing B whose only recorded value is an explicit 0
leaves A's Balance and the settlement unchanged, and B vanishes from the
Balance keys. -/
theorem claim_C6_witness :
    ("B" ∉ (totals (removePlayer "B" [exA, exB] [exZeroRound]).1
        (removePlayer "B" [exA, exB] [exZeroRound]).2).map Prod.fst) ∧
      finalSettlement (removePlayer "B" [exA, exB] [exZeroRound]).1
          (removePlayer "B" [exA, exB] [exZeroRound]).2 =
        finalSettlement [exA, exB] [exZeroRound] :=
  ⟨(claim_C6 [exA, exB] [exZeroRound] "B").1.1,
    ((claim_C6 [exA, exB] [exZeroRound] "B").2 (by decide) (by decide)).2.2⟩

/-- C8 (amended): replacing a non-finite recorded value (at key `k`,
in a well-formed value map) with 0 leaves the final Balance of every
player other than that round's banker unchanged; the banker's Balance may
change, because the non-finite value previously collapsed the banker's
implied value to 0.  (As stated — every player's Balance unchanged — the
claim is false: see the counterexample.) -/
theorem claim_C8 (players : List Player) (pre post : List GameRound)
    (r : GameRound) (k : String) (hnd : (keysOf r.values).Nodup)
    (hk : lookupD r.values k = JsNum.nonfinite) :
    ∀ q : String, q ≠ r.bankerId →
      balanceD players (pre ++
          (⟨r.id, r.bankerId,
            r.values.map fun kv => if kv.1 = k then (kv.1, JsNum.fin 0) else kv⟩ :
            GameRound) :: post) q =
        balanceD players (pre ++ r :: post) q :=
  fun q hq => balanceD_replace_nonfinite players pre post r k q hnd hk hq

/-- C8 counterexample: replacing B's non-finite value with 0 changes
banker A's Balance from 0 to -50. -/
theorem claim_C8_counterexample :
    lookupD exRoundN.values "B" = JsNum.nonfinite ∧
      exRoundN0 = ⟨exRoundN.id, exRoundN.bankerId,
        exRoundN.values.map fun kv => if kv.1 = "B" then (kv.1, JsNum.fin 0) else kv⟩ ∧
      balanceD exPlayers3 [exRoundN0] "A" ≠ balanceD exPlayers3 [exRoundN] "A" := by
  refine ⟨by decide, rfl, by decide⟩

/-- C8 witness: non-banker C's Balance is unchanged by the
replacement. -/
theorem claim_C8_witness :
    lookupD exRoundN.values "B" = JsNum.nonfinite ∧
      balanceD exPlayers3 ([] ++
          (⟨exRoundN.id, exRoundN.bankerId,
            exRoundN.values.map fun kv =>
              if kv.1 = "B" then (kv.1, JsNum.fin 0) else kv⟩ : GameRound) :: []) "C" =
        balanceD exPlayers3 ([] ++ exRoundN :: []) "C" :=
  ⟨by decide,
    claim_C8 exPlayers3 [] [] exRoundN "B" (by decide) (by decide) "C" (by decide)⟩

/-- C10 (amended): removing a round with an empty bankerId leaves
every player's Balance and the Settlement output unchanged, and leaves the
DebtItem sequence unchanged except that the 1-based `roundIndex` labels of
the items of later rounds each drop by one (all other DebtItem fields are
unchanged).  (As stated — the whole DebtItem sequence unchanged — the
claim is false because `roundIndex` is positional: see the
counterexample.) -/
theorem claim_C10 (players : List Player) (pre post : List GameRound)
    (r : GameRound) (hb : r.bankerId = "") :
    totals players (pre ++ r :: post) = totals players (pre ++ post) ∧
      finalSettlement players (pre ++ r :: post) =
        finalSettlement players (pre ++ post) ∧
      settlementByPerson players (pre ++ r :: post) =
        settlementByPerson players (pre ++ post) ∧
      debtsByRound players (pre ++ r :: post) =
        debtsByRound players pre ++ (debtsAux players pre.length post).map bumpIdx ∧
      debtsByRound players (pre ++ post) =
        debtsByRound players pre ++ debtsAux players pre.length post := by
  have ht := totals_skip_empty players pre post r hb
  refine ⟨ht, ?_, ?_, ?_, ?_⟩
  · unfold finalSettlement
    rw [ht]
  · unfold settlementByPerson finalSettlement
    rw [ht]
  · unfold debtsByRound
    rw [debtsAux_append players pre (r :: post) 0]
    rw [show debtsAux players (0 + pre.length) (r :: post) =
      (if r.bankerId = "" then [] else roundDebts players (0 + pre.length) r) ++
        debtsAux players (0 + pre.length + 1) post from rfl]
    rw [if_pos hb, List.nil_append]
    rw [debtsAux_succ players post (0 + pre.length)]
    rw [show 0 + pre.length = pre.length from by omega]
  · unfold debtsByRound
    rw [debtsAux_append players pre post 0]
    rw [show 0 + pre.length = pre.length from by omega]

/-- C10 counterexample: deleting a bankerless round renumbers the
`roundIndex` of every later round's DebtItems, so the DebtItem sequence is
not unchanged. -/
theorem claim_C10_counterexample :
    exEmptyRound.bankerId = "" ∧
      debtsByRound [exA, exB] [exEmptyRound, exRoundAB] ≠
        debtsByRound [exA, exB] [exRoundAB] := by
  refine ⟨rfl, by decide⟩

/-- C10 witness: concrete instance with one bankerless round before
one real round. -/
theorem claim_C10_witness :
    totals [exA, exB] ([] ++ exEmptyRound :: [exRoundAB]) =
        totals [exA, exB] ([] ++ [exRoundAB]) ∧
      finalSettlement [exA, exB] ([] ++ exEmptyRound :: [exRoundAB]) =
        finalSettlement [exA, exB] ([] ++ [exRoundAB]) :=
  ⟨(claim_C10 [exA, exB] [] [exRoundAB] exEmptyRound (by decide)).1,
    (claim_C10 [exA, exB] [] [exRoundAB] exEmptyRound (by decide)).2.1⟩
